import Mathlib

/-!
# cytolib: the metadata state of a `CytoFrame`

A shallow embedding of `inst/include/cytolib/CytoFrame.hpp`: the column
descriptors, the two name-to-position hash maps, the keyword store, the pheno
data and the read-only flag, together with the operations that query and
mutate them.

Conventions of the embedding.

* A member function that mutates the frame becomes a function from the frame
  to an `Outcome`: the exception that left the call (if any) and the frame as
  it is when the call ends, so that a mutation made before a `throw` stays
  visible.
* A `const` member function that may throw returns `Except domain_error _`,
  or `Except exception _` when it can throw something else as well.
* Functions of libraries outside the sources (`boost::lexical_cast`, `mktime`,
  the inversion and multiplication of matrices) and helpers declared outside
  the sources are parameters of the functions that call them, with `none` for
  the exception they throw. The worked examples use small sample instances.
* Floating-point values are exact rationals.
* The event matrix is stored by the concrete frame classes; the functions that
  read or write it take it as an argument.
* `throw(domain_error(msg))` keeps its message: `set_channels` decides which
  exceptions to swallow by searching the message text.
* Column positions are `unsigned`/`int` in the source. Frames have far fewer
  than `2^31` columns, so positions are integers without wrap-around.
* Other `int` arithmetic wraps: the product `n*n` that sizes the matrix in
  `get_compensation` is reduced to the 32-bit two's-complement range
  (`wrap_int`), which is what the compiled code computes.
* Indexing a `vector` out of range is undefined in the source. The embedding
  makes such an assignment a no-op and such a read the default-constructed
  element (what `params_new[i]` holds before it is assigned). Where a theorem
  depends on what such an access yields, it assumes the position in range.
-/

namespace cytolib

/-! ## Hash maps with string keys -/

/-- The (key, value) entries of a string-keyed map. -/
abbrev Entries (V : Type) := List (String × V)

namespace Entries

variable {V : Type}

/-- The keys of the entries, in list order. -/
def keys (l : Entries V) : List String := l.map Prod.fst

/-- The value stored under `k`, if any. -/
def find : Entries V → String → Option V
  | [], _ => none
  | (k1, v1) :: rest, k => if k1 = k then some v1 else find rest k

/-- Overwrite the value under `k`, or add the entry when `k` is new. -/
def set : Entries V → String → V → Entries V
  | [], k, v => [(k, v)]
  | (k1, v1) :: rest, k, v => if k1 = k then (k, v) :: rest else (k1, v1) :: set rest k v

/-- Drop the entries whose key is `k`. -/
def erase (l : Entries V) (k : String) : Entries V := l.filter (fun e => decide (e.1 ≠ k))

/-- Apply `g` to every value, keeping the keys. -/
def map_values (g : V → V) (l : Entries V) : Entries V := l.map (fun e => (e.1, g e.2))

end Entries

/-! The facts about keys that make the map operations well defined. -/

theorem Entries.keys_set {V : Type} (l : Entries V) (k : String) (v : V) :
    Entries.keys (Entries.set l k v)
      = if k ∈ Entries.keys l then Entries.keys l else Entries.keys l ++ [k] := by
  induction l with
  | nil => simp [Entries.set, Entries.keys]
  | cons e rest ih =>
    obtain ⟨k1, v1⟩ := e
    by_cases h : k1 = k
    · subst h; simp [Entries.set, Entries.keys]
    · have h2 : ¬ k = k1 := fun e => h e.symm
      simp only [Entries.keys] at ih
      simp only [Entries.set, Entries.keys, h, h2, if_false, List.map_cons, List.mem_cons,
        false_or, ih]
      split <;> simp

theorem Entries.nodup_keys_set {V : Type} (l : Entries V) (k : String) (v : V)
    (h : (Entries.keys l).Nodup) : (Entries.keys (Entries.set l k v)).Nodup := by
  rw [Entries.keys_set]
  split
  · exact h
  · rename_i hk
    exact List.Nodup.append h (List.nodup_singleton k) (by simpa using hk)

theorem Entries.nodup_keys_erase {V : Type} (l : Entries V) (k : String)
    (h : (Entries.keys l).Nodup) : (Entries.keys (Entries.erase l k)).Nodup := by
  unfold Entries.keys Entries.erase
  exact List.Nodup.sublist (List.Sublist.map _ (List.filter_sublist l)) h

theorem Entries.keys_map_values {V : Type} (g : V → V) (l : Entries V) :
    Entries.keys (Entries.map_values g l) = Entries.keys l := by
  simp [Entries.keys, Entries.map_values, Function.comp_def]

/-- A `std::unordered_map<string, V>`: entries with pairwise distinct keys.
The order of the entries carries no meaning; it is only the order in which the
embedding happens to store them. -/
structure unordered_map (V : Type) where
  entries : Entries V
  distinct : (Entries.keys entries).Nodup

namespace unordered_map

variable {V : Type}

/-- The map after `clear()`. -/
def clear : unordered_map V := ⟨[], List.nodup_nil⟩

/-- The result of `m.find(k)`: `none` stands for `m.end()`. -/
def find (m : unordered_map V) (k : String) : Option V := Entries.find m.entries k

/-- The map after `m[k] = v`. -/
def assign (m : unordered_map V) (k : String) (v : V) : unordered_map V :=
  ⟨Entries.set m.entries k v, Entries.nodup_keys_set m.entries k v m.distinct⟩

/-- The map after `m.erase(k)`. -/
def erase (m : unordered_map V) (k : String) : unordered_map V :=
  ⟨Entries.erase m.entries k, Entries.nodup_keys_erase m.entries k m.distinct⟩

/-- The value of `m.size()`. -/
def size (m : unordered_map V) : Nat := m.entries.length

/-- Rewrite every value in place (a loop `for (auto & it : m) it.second = g(it.second)`). -/
def map_values (g : V → V) (m : unordered_map V) : unordered_map V :=
  ⟨Entries.map_values g m.entries, by rw [Entries.keys_map_values]; exact m.distinct⟩

/-- The comparison `a == b` of two hash maps: equal sizes, and every entry of
`a` is found in `b` with the same value. -/
def equal [DecidableEq V] (a b : unordered_map V) : Bool :=
  a.size == b.size && a.entries.all (fun e => b.find e.1 == some e.2)

end unordered_map

instance {V : Type} [DecidableEq V] : DecidableEq (unordered_map V) := fun a b =>
  decidable_of_iff (a.entries = b.entries)
    ⟨fun h => by cases a; cases b; cases h; rfl, fun h => by rw [h]⟩

/-! ## Data model -/

/-- The three ways a column name can be qualified. -/
inductive ColType where
  | channel
  | marker
  | unknown
  deriving DecidableEq, Repr

/-- Modelled from the spec: the typedef `EVENT_DATA_TYPE` is declared outside
the sources; the spec gives the event and range values as floating-point
numbers. The operations here only store and copy such values, so exact
rationals stand for them. -/
abbrev EVENT_DATA_TYPE := Rat

/-- Modelled from the spec: the class `cytoParam` is declared in
`readFCSHeader.hpp`, which is not among the sources. Its fields are those of
the spec's column descriptor, under the names `params_c_str` reads them by. -/
structure cytoParam where
  channel : String
  marker : String
  min : EVENT_DATA_TYPE
  max : EVENT_DATA_TYPE
  PnG : EVENT_DATA_TYPE
  PnE : EVENT_DATA_TYPE × EVENT_DATA_TYPE
  PnB : Int
  deriving DecidableEq

/-- A default-constructed descriptor: empty names, the numeric fields taken
as zero. -/
instance : Inhabited cytoParam := ⟨⟨"", "", 0, 0, 0, (0, 0), 0⟩⟩

/-- The pheno data type `PDATA`. -/
abbrev PDATA := unordered_map String

/-- Modelled from the spec: `KEY_WORDS` is declared in `readFCSHeader.hpp`,
which is not among the sources; the spec describes the keyword store as an
unordered string-to-string map. -/
abbrev KEY_WORDS := unordered_map String

/-- Modelled from the spec: `CHANNEL_MAP` is declared outside the sources; the
spec calls it a name-to-name mapping. It appears here as the sequence of its
(old name, new name) entries in the order the range-for loop visits them. -/
abbrev CHANNEL_MAP := List (String × String)

/-- The exception `std::domain_error`, with its message. -/
structure domain_error where
  what : String
  deriving DecidableEq, Repr

deriving instance DecidableEq for Except

/-- The data members of `CytoFrame`. -/
structure CytoFrame where
  pheno_data_ : PDATA
  keys_ : KEY_WORDS
  params : List cytoParam
  channel_vs_idx : unordered_map Int
  marker_vs_idx : unordered_map Int
  readonly_ : Bool
  deriving DecidableEq

/-- How a mutating member function ends: the exception that propagated out of
it (`none` when it returned normally) and the frame at that moment. -/
structure Outcome where
  thrown : Option domain_error
  frame : CytoFrame
  deriving DecidableEq

/-! ## Construction, index and guard -/

/-- The frame the protected default constructor makes: everything empty, not
read-only. -/
def CytoFrame.empty : CytoFrame :=
  ⟨unordered_map.clear, unordered_map.clear, [], unordered_map.clear, unordered_map.clear, false⟩

/-- The number of columns, `n_cols()`. -/
def n_cols (f : CytoFrame) : Nat := f.params.length

/-- Whether the index counts as built, `is_hashed()`. -/
def is_hashed (f : CytoFrame) : Bool := f.channel_vs_idx.size == n_cols f

/-- The loop of `build_hash` from column `i` on: `ps` holds the descriptors at
positions `i`, `i + 1`, ...; `c` and `m` are the channel and marker maps so far. -/
def build_hash_loop :
    List cytoParam → Nat → unordered_map Int → unordered_map Int →
      unordered_map Int × unordered_map Int
  | [], _, c, m => (c, m)
  | p :: ps, i, c, m => build_hash_loop ps (i + 1) (c.assign p.channel i) (m.assign p.marker i)

/-- Rebuild both hash maps from the descriptors, `build_hash()`. -/
def build_hash (f : CytoFrame) : CytoFrame :=
  let r := build_hash_loop f.params 0 unordered_map.clear unordered_map.clear
  { f with channel_vs_idx := r.1, marker_vs_idx := r.2 }

/-- The loop of `build_hash` as seen by one of the two maps, the one keyed by
`name`; `build_hash_loop` runs it once for channels and once for markers. -/
def index_loop (name : cytoParam → String) : List cytoParam → Nat → unordered_map Int →
    unordered_map Int
  | [], _, c => c
  | p :: ps, i, c => index_loop name ps (i + 1) (c.assign (name p) i)

/-- The index is consistent: both maps compare equal to the maps `build_hash`
would produce from the descriptors. -/
def index_consistent (f : CytoFrame) : Bool :=
  f.channel_vs_idx.equal (build_hash f).channel_vs_idx &&
    f.marker_vs_idx.equal (build_hash f).marker_vs_idx

/-- The exception of `check_write_permission`. -/
def readonly_error : domain_error := ⟨"Can't modify the read-only CytoFrame object!"⟩

/-- The exception of `get_col_idx` on a frame whose index is not built. -/
def not_hashed_error : domain_error :=
  ⟨"please call buildHash() first to build the hash map for column index!"⟩

/-- The guard `check_write_permission()`. -/
def check_write_permission (f : CytoFrame) : Except domain_error Unit :=
  if f.readonly_ then .error readonly_error else .ok ()

/-- The setter `set_readonly(flag)`. -/
def set_readonly (f : CytoFrame) (flag : Bool) : CytoFrame := { f with readonly_ := flag }

/-- The descriptor setter `set_params(_params, force)`. -/
def set_params (f : CytoFrame) (_params : List cytoParam) (force : Bool) : Outcome :=
  match (if !force then check_write_permission f else .ok ()) with
  | .error e => ⟨some e, f⟩
  | .ok _ => ⟨none, build_hash { f with params := _params }⟩

/-- A descriptor with the given channel and marker names and the numeric
fields of the default descriptor. -/
def cytoParam.named (channel marker : String) : cytoParam :=
  { (default : cytoParam) with channel := channel, marker := marker }

/-- The writable frame that `set_params` makes of the empty frame: descriptors
`p` and the index built from them. -/
def CytoFrame.of_params (p : List cytoParam) : CytoFrame :=
  (set_params CytoFrame.empty p false).frame

/-! ## Keywords and pheno data -/

/-- The setter `set_keywords(keys)`. -/
def set_keywords (f : CytoFrame) (keys : KEY_WORDS) : Outcome :=
  match check_write_permission f with
  | .error e => ⟨some e, f⟩
  | .ok _ => ⟨none, { f with keys_ := keys }⟩

/-- The setter `set_keyword(key, value)`. -/
def set_keyword (f : CytoFrame) (key value : String) : Outcome :=
  match check_write_permission f with
  | .error e => ⟨some e, f⟩
  | .ok _ => ⟨none, { f with keys_ := f.keys_.assign key value }⟩

/-- The overload `set_pheno_data(name, value)`. -/
def set_pheno_data (f : CytoFrame) (name value : String) : Outcome :=
  match check_write_permission f with
  | .error e => ⟨some e, f⟩
  | .ok _ => ⟨none, { f with pheno_data_ := f.pheno_data_.assign name value }⟩

/-- The overload `set_pheno_data(_pd)`. -/
def set_pheno_data_all (f : CytoFrame) (_pd : PDATA) : Outcome :=
  match check_write_permission f with
  | .error e => ⟨some e, f⟩
  | .ok _ => ⟨none, { f with pheno_data_ := _pd }⟩

/-- The member `del_pheno_data(name)`. -/
def del_pheno_data (f : CytoFrame) (name : String) : Outcome :=
  match check_write_permission f with
  | .error e => ⟨some e, f⟩
  | .ok _ => ⟨none, { f with pheno_data_ := f.pheno_data_.erase name }⟩

/-! ## Column lookup -/

/-- The single-name lookup `get_col_idx(colname, type)`; `-1` is "not found". -/
def get_col_idx (f : CytoFrame) (colname : String) (type : ColType) : Except domain_error Int :=
  if !is_hashed f then .error not_hashed_error
  else
    match type with
    | .channel =>
      match f.channel_vs_idx.find colname with
      | none => .ok (-1)
      | some v => .ok v
    | .marker =>
      match f.marker_vs_idx.find colname with
      | none => .ok (-1)
      | some v => .ok v
    | .unknown =>
      match f.channel_vs_idx.find colname, f.marker_vs_idx.find colname with
      | none, none => .ok (-1)
      | some _, some _ => .error ⟨"ambiguous colname without colType: " ++ colname⟩
      | some v, none => .ok v
      | none, some v => .ok v

/-! ## Subsetting and renaming -/

/-- The member `subset_parameters(col_idx)`. -/
def subset_parameters (f : CytoFrame) (col_idx : List Nat) : Outcome :=
  let params_new := col_idx.map (fun j => f.params.getD j default)
  set_params f params_new false

/-- The member `set_channel(oldname, newname, is_update_keywords)`. The
diagnostic print under `g_loglevel` changes no state and is left out. -/
def set_channel (f : CytoFrame) (oldname newname : String) (is_update_keywords : Bool) :
    Outcome :=
  match check_write_permission f with
  | .error e => ⟨some e, f⟩
  | .ok _ =>
    match get_col_idx f oldname .channel with
    | .error e => ⟨some e, f⟩
    | .ok id =>
      if id < 0 then ⟨some ⟨"colname not found: " ++ oldname⟩, f⟩
      else if oldname ≠ newname then
        match get_col_idx f newname .channel with
        | .error e => ⟨some e, f⟩
        | .ok id2 =>
          if id2 ≥ 0 then ⟨some ⟨"colname already exists: " ++ newname⟩, f⟩
          else
            let f1 := { f with
              params := f.params.modify (fun p => { p with channel := newname }) id.toNat }
            let f2 := { f1 with channel_vs_idx := f1.channel_vs_idx.erase oldname }
            let f3 := { f2 with channel_vs_idx := f2.channel_vs_idx.assign newname id }
            if is_update_keywords then
              ⟨none, { f3 with
                keys_ := f3.keys_.map_values (fun v => if v = oldname then newname else v) }⟩
            else ⟨none, f3⟩
      else ⟨none, f⟩

/-- Whether `pat` occurs in `s` as a contiguous block. -/
def occurs_in (pat : List Char) : List Char → Bool
  | [] => pat.isEmpty
  | c :: cs => pat.isPrefixOf (c :: cs) || occurs_in pat cs

/-- The test `msg.find(pat) == string::npos`. -/
def find_is_npos (msg pat : String) : Bool := !occurs_in pat.data msg.data

/-- The range-for loop of `set_channels` over the remaining entries. -/
def set_channels_loop : CytoFrame → CHANNEL_MAP → Outcome
  | f, [] => ⟨none, f⟩
  | f, it :: rest =>
    let r := set_channel f it.1 it.2 true
    match r.thrown with
    | none => set_channels_loop r.frame rest
    | some e =>
      if find_is_npos e.what "colname not found" then ⟨some e, r.frame⟩
      else set_channels_loop r.frame rest

/-- The bulk rename `set_channels(chnl_map)`. -/
def set_channels (f : CytoFrame) (chnl_map : CHANNEL_MAP) : Outcome :=
  match check_write_permission f with
  | .error e => ⟨some e, f⟩
  | .ok _ => set_channels_loop f chnl_map

/-- The member `set_marker(oldname, newname)`. -/
def set_marker (f : CytoFrame) (oldname newname : String) : Outcome :=
  match check_write_permission f with
  | .error e => ⟨some e, f⟩
  | .ok _ =>
    match get_col_idx f oldname .marker with
    | .error e => ⟨some e, f⟩
    | .ok id =>
      if id < 0 then ⟨some ⟨"marker not found: " ++ oldname⟩, f⟩
      else if oldname ≠ newname then
        match get_col_idx f newname .marker with
        | .error e => ⟨some e, f⟩
        | .ok id2 =>
          if id2 ≥ 0 then ⟨some ⟨"marker already exists: " ++ newname⟩, f⟩
          else
            let f1 := { f with
              params := f.params.modify (fun p => { p with marker := newname }) id.toNat }
            let f2 := { f1 with marker_vs_idx := f1.marker_vs_idx.erase oldname }
            ⟨none, { f2 with marker_vs_idx := f2.marker_vs_idx.assign newname id }⟩
      else ⟨none, f⟩

/-- The member `set_range(colname, ctype, new_range, is_update_keywords)`.
The conversion `boost::lexical_cast<string>` of an event value is the
parameter `lexical_cast`. -/
def set_range (lexical_cast : EVENT_DATA_TYPE → String) (f : CytoFrame) (colname : String)
    (ctype : ColType) (new_range : EVENT_DATA_TYPE × EVENT_DATA_TYPE)
    (is_update_keywords : Bool) : Outcome :=
  match check_write_permission f with
  | .error e => ⟨some e, f⟩
  | .ok _ =>
    match get_col_idx f colname ctype with
    | .error e => ⟨some e, f⟩
    | .ok idx =>
      if idx < 0 then ⟨some ⟨"colname not found: " ++ colname⟩, f⟩
      else
        let f1 := { f with
          params := f.params.modify (fun p => { p with min := new_range.1 }) idx.toNat }
        let f2 := { f1 with
          params := f1.params.modify (fun p => { p with max := new_range.2 }) idx.toNat }
        if is_update_keywords then
          let pid := toString (idx + 1)
          let r1 := set_keyword f2 ("flowCore_$P" ++ pid ++ "Rmin") (lexical_cast new_range.1)
          match r1.thrown with
          | some _ => r1
          | none =>
            set_keyword r1.frame ("flowCore_$P" ++ pid ++ "Rmax") (lexical_cast new_range.2)
        else ⟨none, f2⟩

/-! ## Exceptions other than `domain_error`, and the event matrix -/

/-- What a member function can throw: a `domain_error`, the
`boost::bad_lexical_cast` of a failed conversion, the error the linear-algebra
library raises when a matrix cannot be inverted, a string literal
(`throw("...")`), the `std::length_error` of a `vector::resize` beyond the
largest size a vector can have, or the `std::logic_error` the linear-algebra
library raises for operands whose sizes do not fit. -/
inductive exception where
  | domain (e : domain_error)
  | bad_lexical_cast
  | runtime_error
  | c_string (what : String)
  | length_error
  | logic_error
  deriving DecidableEq, Repr

/-- Modelled from the spec: the event matrix lives in the concrete frame
classes, which are not among the sources; the spec describes it as rows of
events by columns of descriptors. It is kept here as the list of its columns,
each the list of the event values of that column. -/
abbrev EVENT_DATA_VEC := List (List EVENT_DATA_TYPE)

/-- Modelled from the spec: `get_data(uvec col_idx)` is pure virtual in
`CytoFrame`; the spec describes it as the subset of columns at the given
positions. -/
def get_data_cols (dat : EVENT_DATA_VEC) (col_idx : List Int) : EVENT_DATA_VEC :=
  col_idx.map (fun j => dat.getD j.toNat [])

/-- The smallest element of a matrix, `vec.min()`; the library leaves it
undefined for a matrix without elements, where this reads 0. -/
def vec_min (vec : EVENT_DATA_VEC) : EVENT_DATA_TYPE :=
  match vec.flatten with
  | [] => 0
  | x :: xs => xs.foldl min x

/-- The largest element of a matrix, `vec.max()`; the library leaves it
undefined for a matrix without elements, where this reads 0. -/
def vec_max (vec : EVENT_DATA_VEC) : EVENT_DATA_TYPE :=
  match vec.flatten with
  | [] => 0
  | x :: xs => xs.foldl max x

/-- How a member function that works on the event matrix ends: the exception
that propagated out of it, the frame, and the event matrix at that moment. -/
structure DataOutcome where
  thrown : Option exception
  frame : CytoFrame
  data : EVENT_DATA_VEC
  deriving DecidableEq

/-! ## Compensation -/

/-- The class `compensation` of `compensation.hpp`; the member `prefix` is
spelled `prefix_`. Matrix entries are `double` in the source and exact
rationals here. -/
structure compensation where
  cid : String
  prefix_ : String
  suffix : String
  name : String
  comment : String
  marker : List String
  spillOver : List Rat
  deriving DecidableEq, Repr

/-- A default-constructed `compensation`: every member empty. -/
instance : Inhabited compensation := ⟨⟨"", "", "", "", "", [], []⟩⟩

/-- Split a text at every comma, as `boost::split` with `is_any_of(",")` does:
adjacent commas and commas at either end give empty tokens, and a text without
a comma (also the empty text) is one token. -/
def split_commas : List Char → List (List Char)
  | [] => [[]]
  | c :: cs =>
    if c = ',' then [] :: split_commas cs
    else
      match split_commas cs with
      | [] => [[c]]
      | t :: ts => (c :: t) :: ts

/-- The tokens of `val` between its commas. -/
def split (val : String) : List String := (split_commas val.data).map String.mk

/-- The second loop of `get_compensation`: the remaining tokens are converted
one by one and stored at `spillOver[k]`, `spillOver[k + 1]`, ...; a failed
conversion throws. -/
def spill_loop (to_double : String → Option Rat) :
    List String → Nat → List Rat → Except exception (List Rat)
  | [], _, spillOver => .ok spillOver
  | t :: ts, k, spillOver =>
    match to_double t with
    | none => .error .bad_lexical_cast
    | some x => spill_loop to_double ts (k + 1) (spillOver.set k x)

/-- The value a 32-bit `int` holds after an arithmetic operation whose exact
result is `x`: `x` reduced modulo `2^32` into the range from `-2^31` to
`2^31 - 1`. -/
def wrap_int (x : Int) : Int := (x + 2 ^ 31) % 2 ^ 32 - 2 ^ 31

/-- The member `get_compensation(key)`. The conversions
`boost::lexical_cast<int>` and `boost::lexical_cast<double>` belong to a
library and are the parameters `to_int` and `to_double`; `none` stands for the
`bad_lexical_cast` they throw, and `to_int` gives values an `int` can hold.
The size passed to `comp.spillOver.resize(n*n)` is an `int` product: it wraps
from `n = 46341` on, and a negative product, converted to the unsigned size
type, is a size beyond what a vector can have, for which `resize` throws
`length_error`. The index `i` of the second loop is `unsigned`; the loop is
modelled for values with fewer than `2^32` tokens. -/
def get_compensation (to_int : String → Option Int) (to_double : String → Option Rat)
    (f : CytoFrame) (key : String) : Except exception compensation :=
  let comp : compensation := default
  match f.keys_.find key with
  | none => .ok comp
  | some val =>
    let valVec := split val
    match to_int (valVec.getD 0 "") with
    | none => .error .bad_lexical_cast
    | some n =>
      if n > 0 then
        let size := wrap_int (n * n)
        if size < 0 then .error .length_error
        else
          let spillOver := List.replicate size.toNat (0 : Rat)
          let marker := (List.range n.toNat).map (fun i => valVec.getD (i + 1) "")
          match spill_loop to_double (valVec.drop (n.toNat + 1)) 0 spillOver with
          | .error e => .error e
          | .ok sp => .ok { comp with marker := marker, spillOver := sp }
      else .ok comp

/-- The loop of `compensate` that resolves the marker names to channel
positions, in order; the first name that is not found throws. -/
def compensate_indices (f : CytoFrame) : List String → Except domain_error (List Int)
  | [] => .ok []
  | m :: ms =>
    match get_col_idx f m .channel with
    | .error e => .error e
    | .ok id =>
      if id < 0 then
        .error ⟨"compensation parameter '" ++ m ++ " not found in cytoframe parameters!"⟩
      else
        match compensate_indices f ms with
        | .error e => .error e
        | .ok ids => .ok (id :: ids)

/-- Modelled from the spec: `set_data` is pure virtual in `CytoFrame`; the
spec describes it as the mutating call that stores a new event matrix and that
a frame with the guard set rejects with the read-only error. Here `dat` is the
event matrix of the frame and `_data` the matrix to store. -/
def set_data (f : CytoFrame) (dat _data : EVENT_DATA_VEC) : DataOutcome :=
  match check_write_permission f with
  | .error e => ⟨some (.domain e), f, dat⟩
  | .ok _ => ⟨none, f, _data⟩

/-- The member `compensate(comp)` on a frame whose event matrix is `dat`
(what `get_data()` returns). The linear algebra belongs to a library:
`get_spillover_mat` builds the matrix of the compensation, `inv` inverts it
(`none` when the library throws), and `mul_cols dat indices B` is `dat` with
the columns at `indices` multiplied by `B` (`none` when the library throws,
as it does for sizes that do not fit). The product is computed on the local
copy `dat` and reaches the frame through `set_data` only. -/
def compensate {M : Type} (get_spillover_mat : compensation → M) (inv : M → Option M)
    (mul_cols : EVENT_DATA_VEC → List Int → M → Option EVENT_DATA_VEC)
    (f : CytoFrame) (dat : EVENT_DATA_VEC) (comp : compensation) : DataOutcome :=
  match inv (get_spillover_mat comp) with
  | none => ⟨some .runtime_error, f, dat⟩
  | some B =>
    match compensate_indices f comp.marker with
    | .error e => ⟨some (.domain e), f, dat⟩
    | .ok indices =>
      match mul_cols dat indices B with
      | none => ⟨some .logic_error, f, dat⟩
      | some _data => set_data f dat _data

/-! ## Keyword lookup, batch lookup and ranges -/

/-- The member `get_keyword(key)`. -/
def get_keyword (f : CytoFrame) (key : String) : String :=
  match f.keys_.find key with
  | some v => v
  | none => ""

/-- The loop of the batch lookup over the remaining names. -/
def get_col_idx_vec (f : CytoFrame) : List String → ColType → Except domain_error (List Int)
  | [], _ => .ok []
  | name :: rest, col_type =>
    match get_col_idx f name col_type with
    | .error e => .error e
    | .ok idx =>
      if idx < 0 then .error ⟨"colname not found: " ++ name⟩
      else
        match get_col_idx_vec f rest col_type with
        | .error e => .error e
        | .ok col_idx => .ok (idx :: col_idx)

/-- The two kinds of range. -/
inductive RangeType where
  | instrument
  | data
  deriving DecidableEq, Repr

/-- The member `get_range(colname, ctype, rtype)` on a frame whose event
matrix is `dat`. -/
def get_range (dat : EVENT_DATA_VEC) (f : CytoFrame) (colname : String) (ctype : ColType)
    (rtype : RangeType) : Except exception (EVENT_DATA_TYPE × EVENT_DATA_TYPE) :=
  match rtype with
  | .data =>
    match get_col_idx_vec f [colname] ctype with
    | .error e => .error (.domain e)
    | .ok col_idx =>
      let vec := get_data_cols dat col_idx
      .ok (vec_min vec, vec_max vec)
  | .instrument =>
    match get_col_idx f colname ctype with
    | .error e => .error (.domain e)
    | .ok idx =>
      if idx < 0 then .error (.domain ⟨"colname not found: " ++ colname⟩)
      else .ok ((f.params.getD idx.toNat default).min, (f.params.getD idx.toNat default).max)

/-! ## Time step -/

/-- The result type `TM_ext` of `parse_time_with_fractional_seconds`: a
broken-down time of type `TM` and the fractional seconds read after it. -/
structure TM_ext (TM : Type) where
  time : TM
  fractional_secs : EVENT_DATA_TYPE

/-- The library function `difftime(end, beginning)` on calendar times counted
in seconds. -/
def difftime (time_end time_beginning : Int) : EVENT_DATA_TYPE :=
  ((time_end - time_beginning : Int) : Rat)

/-- The member `get_time_step(time_channel)` on a frame whose event matrix is
`dat`. The helper `parse_time_with_fractional_seconds` is declared outside the
sources and `mktime` belongs to the C library; both are parameters, and so is
the conversion `to_double` of `boost::lexical_cast`. -/
def get_time_step {TM : Type} (to_double : String → Option EVENT_DATA_TYPE)
    (parse_time_with_fractional_seconds : String → TM_ext TM) (mktime : TM → Int)
    (dat : EVENT_DATA_VEC) (f : CytoFrame) (time_channel : String) :
    Except exception EVENT_DATA_TYPE :=
  match f.keys_.find "$TIMESTEP" with
  | some v =>
    match to_double v with
    | none => .error .bad_lexical_cast
    | some ts => .ok ts
  | none =>
    match f.keys_.find "$BTIM", f.keys_.find "$ETIM" with
    | some b, some e =>
      let btime := parse_time_with_fractional_seconds b
      let etime := parse_time_with_fractional_seconds e
      let ts := difftime (mktime btime.time) (mktime btime.time)
      let ts := ts + etime.fractional_secs / 100 - btime.fractional_secs / 100
      match get_range dat f time_channel .channel .data with
      | .error err => .error err
      | .ok time_range => .ok (ts / (time_range.2 - time_range.1))
    | _, _ => .ok 1

/-! ## Writing the persistent store -/

/-- The state of the output file of `write_h5`: the names of the datasets
created in it so far, in order. -/
abbrev H5File := List String

/-- How `write_h5` ends: the exception that propagated out of it and the
datasets written by then. -/
structure H5Outcome where
  thrown : Option exception
  file : H5File
  deriving DecidableEq

/-- The member `write_h5_params(file)`. -/
def write_h5_params (_f : CytoFrame) (file : H5File) : H5File := file ++ ["params"]

/-- The member `write_h5_keys(file)`. -/
def write_h5_keys (_f : CytoFrame) (file : H5File) : H5File := file ++ ["keywords"]

/-- The member `write_h5_pheno_data(file)`. -/
def write_h5_pheno_data (f : CytoFrame) (file : H5File) : Except exception H5File :=
  if f.pheno_data_.size = 0 then
    .error (.c_string "CytoFrame requires non-empty pdata to write to h5!")
  else .ok (file ++ ["pdata"])

/-- The name `DATASET_NAME` of the event-matrix dataset. -/
def DATASET_NAME : String := "data"

/-- The member `write_h5(filename)`: the file is created empty
(`H5F_ACC_TRUNC`) and the four datasets are written into it. Failures of the
storage library itself are outside this embedding. -/
def write_h5 (f : CytoFrame) : H5Outcome :=
  let file : H5File := []
  let file := write_h5_params f file
  let file := write_h5_keys f file
  match write_h5_pheno_data f file with
  | .error e => ⟨some e, file⟩
  | .ok file => ⟨none, file ++ [DATASET_NAME]⟩

/-! ## Copying and moving -/

/-- The members of a frame object before the body of a constructor without
initialiser list runs: the containers are empty, and the flag `readonly_`,
which nothing has set, holds whatever value `uninit` its memory held. -/
def CytoFrame.uninitialized (uninit : Bool) : CytoFrame :=
  ⟨unordered_map.clear, unordered_map.clear, [], unordered_map.clear, unordered_map.clear, uninit⟩

/-- The copy constructor `CytoFrame(const CytoFrame & frm)`: the new frame.
All six members are assigned, so the value `uninit` does not survive. -/
def copy_construct (uninit : Bool) (frm : CytoFrame) : CytoFrame :=
  let this := CytoFrame.uninitialized uninit
  let this := { this with pheno_data_ := frm.pheno_data_ }
  let this := { this with keys_ := frm.keys_ }
  let this := { this with params := frm.params }
  let this := { this with channel_vs_idx := frm.channel_vs_idx }
  let this := { this with marker_vs_idx := frm.marker_vs_idx }
  { this with readonly_ := frm.readonly_ }

/-- The copy assignment `operator=(const CytoFrame & frm)`: the assigned
frame. -/
def copy_assign (this frm : CytoFrame) : CytoFrame :=
  let this := { this with pheno_data_ := frm.pheno_data_ }
  let this := { this with keys_ := frm.keys_ }
  let this := { this with params := frm.params }
  let this := { this with channel_vs_idx := frm.channel_vs_idx }
  let this := { this with marker_vs_idx := frm.marker_vs_idx }
  { this with readonly_ := frm.readonly_ }

/-- The move assignment `operator=(CytoFrame && frm)`: the assigned frame and
the frame moved from, after the six swaps. -/
def move_assign (this frm : CytoFrame) : CytoFrame × CytoFrame :=
  let (this, frm) := ({ this with pheno_data_ := frm.pheno_data_ },
    { frm with pheno_data_ := this.pheno_data_ })
  let (this, frm) := ({ this with keys_ := frm.keys_ }, { frm with keys_ := this.keys_ })
  let (this, frm) := ({ this with params := frm.params }, { frm with params := this.params })
  let (this, frm) := ({ this with channel_vs_idx := frm.channel_vs_idx },
    { frm with channel_vs_idx := this.channel_vs_idx })
  let (this, frm) := ({ this with marker_vs_idx := frm.marker_vs_idx },
    { frm with marker_vs_idx := this.marker_vs_idx })
  ({ this with readonly_ := frm.readonly_ }, { frm with readonly_ := this.readonly_ })

/-- The value of `boost::lexical_cast<int>` on the tokens the examples use;
other tokens are rejected. -/
def to_int_sample (s : String) : Option Int :=
  if s = "0" then some 0 else if s = "1" then some 1 else if s = "2" then some 2 else none

/-- The value of `boost::lexical_cast<int>` on the tokens of `to_int_sample`
and on "46341", the smallest count whose square no longer fits an `int`. -/
def to_int_large_sample (s : String) : Option Int :=
  if s = "46341" then some 46341 else to_int_sample s

/-- A keyword value in the format `get_compensation` reads, given by its
tokens: the text `count`, then `n` times the marker name "a", then `m` times
the number "1", each of these preceded by a comma. -/
def spill_value (count : String) (n m : Nat) : String :=
  String.mk (count.data ++
    ((List.replicate n "a".data ++ List.replicate m "1".data).map (fun t => ',' :: t)).flatten)

/-- The value of `boost::lexical_cast<double>` on the tokens the examples use;
other tokens are rejected. -/
def to_double_sample (s : String) : Option Rat :=
  if s = "0" then some 0
  else if s = "1" then some 1
  else if s = "0.1" then some (1 / 10)
  else if s = "0.2" then some (1 / 5)
  else if s = "0.5" then some (1 / 2)
  else none

/-- The inverse of a matrix with a single entry, as a sample of what `inv`
gives: the library throws for the matrix (0); larger matrices are not needed in
the examples and are rejected. -/
def inv_sample (B : List Rat) : Option (List Rat) :=
  match B with
  | [x] => if x = 0 then none else some [1 / x]
  | _ => none

/-- The values of `parse_time_with_fractional_seconds` on the two texts of
the worked example, with the broken-down time kept as the second of the day:
"10:00:00.00" is second 36000 with fraction 0, "10:00:01.50" is second 36001
with fraction 50 (hundredths). Other texts are not needed there. -/
def parse_time_sample (s_time : String) : TM_ext Nat :=
  if s_time = "10:00:00.00" then ⟨36000, 0⟩
  else if s_time = "10:00:01.50" then ⟨36001, 50⟩
  else ⟨0, 0⟩

/-- The calendar time `mktime` gives for a second of the day, counted from the
start of that day. -/
def mktime_sample (t : Nat) : Int := t

/-! ## Facts about the map operations -/

namespace Entries
variable {V : Type}

theorem find_set_self (l : Entries V) (k : String) (v : V) : find (set l k v) k = some v := by
  induction l with
  | nil => simp [set, find]
  | cons e rest ih =>
    obtain ⟨k1, v1⟩ := e
    by_cases h : k1 = k <;> simp [set, find, h, ih]

theorem find_set_ne (l : Entries V) (k k2 : String) (v : V) (h : k2 ≠ k) :
    find (set l k v) k2 = find l k2 := by
  induction l with
  | nil => simp [set, find, h.symm]
  | cons e rest ih =>
    obtain ⟨k1, v1⟩ := e
    by_cases h1 : k1 = k
    · subst h1; simp [set, find, h.symm]
    · by_cases h2 : k1 = k2
      · subst h2; simp [set, find, h1]
      · simp [set, find, h1, h2, ih]

theorem find_erase_same (l : Entries V) (k : String) : find (erase l k) k = none := by
  induction l with
  | nil => simp [erase, find]
  | cons e rest ih =>
    obtain ⟨k1, v1⟩ := e
    by_cases h : k1 = k
    · simpa [erase, List.filter_cons, h] using ih
    · simpa [erase, List.filter_cons, h, find] using ih

theorem find_erase_other (l : Entries V) (k k2 : String) (h : k2 ≠ k) :
    find (erase l k) k2 = find l k2 := by
  induction l with
  | nil => simp [erase, find]
  | cons e rest ih =>
    obtain ⟨k1, v1⟩ := e
    by_cases h1 : k1 = k
    · subst h1
      simpa [erase, List.filter_cons, find, h.symm] using ih
    · by_cases h2 : k1 = k2
      · subst h2; simp [erase, List.filter_cons, h1, find]
      · simpa [erase, List.filter_cons, h1, find, h2] using ih

theorem find_eq_none_iff (l : Entries V) (k : String) : find l k = none ↔ k ∉ keys l := by
  induction l with
  | nil => simp [find, keys]
  | cons e rest ih =>
    obtain ⟨k1, v1⟩ := e
    by_cases h : k1 = k
    · simp [find, keys, h]
    · have h2 : ¬ k = k1 := fun e => h e.symm
      simpa [find, keys, h, h2] using ih

theorem length_set (l : Entries V) (k : String) (v : V) :
    (set l k v).length = if k ∈ keys l then l.length else l.length + 1 := by
  have h := congrArg List.length (keys_set l k v)
  simp only [keys, List.length_map] at h
  by_cases hk : k ∈ keys l
  · simp only [keys] at hk; simp [h, hk, keys]
  · simp only [keys] at hk; simp [h, hk, keys]

end Entries

namespace unordered_map
variable {V : Type}

theorem size_clear : (clear : unordered_map V).size = 0 := rfl

theorem find_assign_self (m : unordered_map V) (k : String) (v : V) :
    (m.assign k v).find k = some v := Entries.find_set_self m.entries k v

theorem find_assign_ne (m : unordered_map V) (k k2 : String) (v : V) (h : k2 ≠ k) :
    (m.assign k v).find k2 = m.find k2 := Entries.find_set_ne m.entries k k2 v h

theorem find_erase_self (m : unordered_map V) (k : String) : (m.erase k).find k = none :=
  Entries.find_erase_same m.entries k

theorem find_erase_ne (m : unordered_map V) (k k2 : String) (h : k2 ≠ k) :
    (m.erase k).find k2 = m.find k2 := Entries.find_erase_other m.entries k k2 h

theorem size_assign_of_none (m : unordered_map V) (k : String) (v : V) (h : m.find k = none) :
    (m.assign k v).size = m.size + 1 := by
  have hk := (Entries.find_eq_none_iff m.entries k).1 h
  simp [size, assign, Entries.length_set, hk]

theorem size_assign_of_some (m : unordered_map V) (k : String) (v w : V)
    (h : m.find k = some w) : (m.assign k v).size = m.size := by
  have hk : k ∈ Entries.keys m.entries := by
    by_contra hc
    have := (Entries.find_eq_none_iff m.entries k).2 hc
    simp [find] at h
    simp [h] at this
  simp [size, assign, Entries.length_set, hk]

end unordered_map

/-! ## Facts about `build_hash` -/

theorem build_hash_loop_eq (ps : List cytoParam) (i : Nat) (c m : unordered_map Int) :
    build_hash_loop ps i c m
      = (index_loop cytoParam.channel ps i c, index_loop cytoParam.marker ps i m) := by
  induction ps generalizing i c m with
  | nil => rfl
  | cons p ps ih => simp [build_hash_loop, index_loop, ih]

theorem find_index_loop_of_not_mem (name : cytoParam → String) (ps : List cytoParam) (i : Nat)
    (c : unordered_map Int) (k : String) (h : k ∉ ps.map name) :
    (index_loop name ps i c).find k = c.find k := by
  induction ps generalizing i c with
  | nil => rfl
  | cons p ps ih =>
    have h1 : k ≠ name p ∧ k ∉ ps.map name := by simpa using h
    rw [index_loop, ih _ _ h1.2, unordered_map.find_assign_ne _ _ _ _ h1.1]

theorem find_index_loop_of_last (name : cytoParam → String) (ps : List cytoParam) (i : Nat)
    (c : unordered_map Int) (j : Nat) (hj : j < ps.length)
    (hlast : ∀ k (hk : k < ps.length), j < k → name ps[k] ≠ name ps[j]) :
    (index_loop name ps i c).find (name ps[j]) = some ((i + j : Nat) : Int) := by
  induction ps generalizing i c j with
  | nil => simp at hj
  | cons p ps ih =>
    cases j with
    | zero =>
      have hnot : name p ∉ ps.map name := by
        intro hmem
        obtain ⟨q, hq, hqn⟩ := List.mem_map.1 hmem
        obtain ⟨k, hk, hkq⟩ := List.getElem_of_mem hq
        have := hlast (k + 1) (by simpa using hk) (by omega)
        simp only [List.getElem_cons_succ, List.getElem_cons_zero] at this
        exact this (by rw [hkq, hqn])
      simp only [List.getElem_cons_zero, index_loop]
      rw [find_index_loop_of_not_mem name ps _ _ _ hnot, unordered_map.find_assign_self]
      simp
    | succ j =>
      have hj2 : j < ps.length := by simpa using hj
      have := ih (i + 1) (c.assign (name p) i) j hj2 (by
        intro k hk hjk
        have := hlast (k + 1) (by simpa using hk) (by omega)
        simpa using this)
      simp only [List.getElem_cons_succ, index_loop]
      rw [this]
      congr 2
      omega

theorem size_index_loop (name : cytoParam → String) (ps : List cytoParam) (i : Nat)
    (c : unordered_map Int) (hn : (ps.map name).Nodup)
    (hc : ∀ p ∈ ps, c.find (name p) = none) :
    (index_loop name ps i c).size = c.size + ps.length := by
  induction ps generalizing i c with
  | nil => rfl
  | cons p ps ih =>
    have hn2 : name p ∉ ps.map name ∧ (ps.map name).Nodup := by simpa using hn
    rw [index_loop, ih (i + 1) _ hn2.2, unordered_map.size_assign_of_none _ _ _
      (hc p (List.mem_cons_self p ps))]
    · simp only [List.length_cons]; omega
    · intro q hq
      have hne : name q ≠ name p := by
        intro e
        exact hn2.1 (List.mem_map.2 ⟨q, hq, e⟩)
      rw [unordered_map.find_assign_ne _ _ _ _ hne]
      exact hc q (List.mem_cons_of_mem p hq)

theorem build_hash_channel_vs_idx (f : CytoFrame) :
    (build_hash f).channel_vs_idx
      = index_loop cytoParam.channel f.params 0 unordered_map.clear := by
  simp [build_hash, build_hash_loop_eq]

theorem build_hash_marker_vs_idx (f : CytoFrame) :
    (build_hash f).marker_vs_idx
      = index_loop cytoParam.marker f.params 0 unordered_map.clear := by
  simp [build_hash, build_hash_loop_eq]

theorem build_hash_params (f : CytoFrame) : (build_hash f).params = f.params := rfl

theorem is_hashed_build_hash (f : CytoFrame) (hp : (f.params.map cytoParam.channel).Nodup) :
    is_hashed (build_hash f) = true := by
  simp only [is_hashed, n_cols, build_hash_params, build_hash_channel_vs_idx, beq_iff_eq]
  rw [size_index_loop _ _ _ unordered_map.clear hp (fun _ _ => rfl)]
  simp [unordered_map.size_clear]

theorem get_col_idx_channel_of_find (f : CytoFrame) (name : String) (v : Int)
    (hh : is_hashed f = true) (hv : f.channel_vs_idx.find name = some v) :
    get_col_idx f name .channel = .ok v := by
  simp [get_col_idx, hh, hv]

theorem get_col_idx_channel_of_none (f : CytoFrame) (name : String)
    (hh : is_hashed f = true) (hv : f.channel_vs_idx.find name = none) :
    get_col_idx f name .channel = .ok (-1) := by
  simp [get_col_idx, hh, hv]

theorem get_col_idx_marker_of_find (f : CytoFrame) (name : String) (v : Int)
    (hh : is_hashed f = true) (hv : f.marker_vs_idx.find name = some v) :
    get_col_idx f name .marker = .ok v := by
  simp [get_col_idx, hh, hv]

/-- C1: on a frame whose index is built, an unqualified lookup returns -1 when
the name is in neither map, the stored position when it is in exactly one of
them, and throws the "ambiguous colname" error when it is in both (also when
both positions are the same). -/
theorem get_col_idx_unknown_cases (f : CytoFrame) (name : String) (hh : is_hashed f = true) :
    (f.channel_vs_idx.find name = none → f.marker_vs_idx.find name = none →
        get_col_idx f name .unknown = .ok (-1)) ∧
    (∀ i, f.channel_vs_idx.find name = some i → f.marker_vs_idx.find name = none →
        get_col_idx f name .unknown = .ok i) ∧
    (∀ i, f.channel_vs_idx.find name = none → f.marker_vs_idx.find name = some i →
        get_col_idx f name .unknown = .ok i) ∧
    (∀ i j, f.channel_vs_idx.find name = some i → f.marker_vs_idx.find name = some j →
        get_col_idx f name .unknown
          = .error ⟨"ambiguous colname without colType: " ++ name⟩) := by
  refine ⟨?_, ?_, ?_, ?_⟩
  · intro h1 h2; simp [get_col_idx, hh, h1, h2]
  · intro i h1 h2; simp [get_col_idx, hh, h1, h2]
  · intro i h1 h2; simp [get_col_idx, hh, h1, h2]
  · intro i j h1 h2; simp [get_col_idx, hh, h1, h2]

/-- C1 at a frame whose only column has channel and marker both named "A":
both maps send "A" to column 0 and the unqualified lookup throws. -/
theorem get_col_idx_unknown_cases_witness :
    is_hashed (CytoFrame.of_params [cytoParam.named "A" "A"]) = true ∧
    get_col_idx (CytoFrame.of_params [cytoParam.named "A" "A"]) "A" .unknown
      = .error ⟨"ambiguous colname without colType: " ++ "A"⟩ :=
  ⟨by decide,
    (get_col_idx_unknown_cases (CytoFrame.of_params [cytoParam.named "A" "A"]) "A"
      (by decide)).2.2.2 0 0 (by decide) (by decide)⟩

/-- Two positions of a descriptor list with pairwise distinct channel names
that carry the same channel are the same position. -/
theorem channel_position_unique (ps : List cytoParam) (hc : (ps.map cytoParam.channel).Nodup)
    (x y : Nat) (hx : x < ps.length) (hy : y < ps.length)
    (e : ps[x].channel = ps[y].channel) : x = y := by
  have hx2 : x < (ps.map cytoParam.channel).length := by simpa using hx
  have hy2 : y < (ps.map cytoParam.channel).length := by simpa using hy
  exact (@List.Nodup.getElem_inj_iff _ _ hc x hx2 y hy2).1 (by simpa using e)

/-- After `build_hash` on descriptors with pairwise distinct channel names,
the channel at position `i` resolves to `i`. -/
theorem get_col_idx_build_hash_channel (f : CytoFrame)
    (hp : (f.params.map cytoParam.channel).Nodup) (i : Nat) (hi : i < f.params.length) :
    get_col_idx (build_hash f) f.params[i].channel .channel = .ok (i : Int) := by
  apply get_col_idx_channel_of_find _ _ _ (is_hashed_build_hash _ hp)
  rw [build_hash_channel_vs_idx]
  have := find_index_loop_of_last cytoParam.channel f.params 0 unordered_map.clear i hi (by
    intro k hk hik e
    have := channel_position_unique f.params hp k i hk hi e
    omega)
  simpa using this

/-- After `build_hash` on descriptors with pairwise distinct channel names, a
marker resolves to the last position that carries it. -/
theorem get_col_idx_build_hash_marker (f : CytoFrame)
    (hp : (f.params.map cytoParam.channel).Nodup) (j : Nat) (hj : j < f.params.length)
    (hlast : ∀ (k : Nat) (hk : k < f.params.length), j < k →
      f.params[k].marker ≠ f.params[j].marker) :
    get_col_idx (build_hash f) f.params[j].marker .marker = .ok (j : Int) := by
  apply get_col_idx_marker_of_find _ _ _ (is_hashed_build_hash _ hp)
  rw [build_hash_marker_vs_idx]
  simpa using find_index_loop_of_last cytoParam.marker f.params 0 unordered_map.clear j hj hlast

/-- C2: when the channel names of `p` are pairwise distinct, rebuilding the
index from `p` (by `build_hash`, or by a `set_params` that is allowed to run)
makes the channel lookup of the name at position `i` return `i`, for every
column position `i`. -/
theorem channel_lookup_roundtrip (f : CytoFrame) (p : List cytoParam)
    (hp : (p.map cytoParam.channel).Nodup) :
    (∀ (i : Nat) (hi : i < p.length),
      get_col_idx (build_hash { f with params := p }) p[i].channel .channel = .ok (i : Int)) ∧
    (∀ force : Bool, force = true ∨ f.readonly_ = false →
      (set_params f p force).thrown = none ∧
      ∀ (i : Nat) (hi : i < p.length),
        get_col_idx (set_params f p force).frame p[i].channel .channel = .ok (i : Int)) := by
  have key : ∀ (i : Nat) (hi : i < p.length),
      get_col_idx (build_hash { f with params := p }) p[i].channel .channel = .ok (i : Int) :=
    fun i hi => get_col_idx_build_hash_channel { f with params := p } hp i hi
  refine ⟨key, ?_⟩
  intro force hf
  have hset : set_params f p force = ⟨none, build_hash { f with params := p }⟩ := by
    rcases hf with hf | hf
    · simp [set_params, hf]
    · cases force <;> simp [set_params, check_write_permission, hf]
  rw [hset]
  exact ⟨rfl, key⟩

/-- C2 at two columns "A" and "B" sharing the marker "m". -/
theorem channel_lookup_roundtrip_witness :
    get_col_idx (build_hash { CytoFrame.empty with
        params := [cytoParam.named "A" "m", cytoParam.named "B" "m"] }) "B" .channel
      = .ok 1 :=
  (channel_lookup_roundtrip CytoFrame.empty [cytoParam.named "A" "m", cytoParam.named "B" "m"]
    (by decide)).1 1 (by decide)

/-- Among the positions of `p` there is a last one carrying the name that
position `i` carries. -/
theorem exists_last_position (name : cytoParam → String) (p : List cytoParam) (i : Nat)
    (hi : i < p.length) :
    ∃ (j : Nat) (hj : j < p.length), i ≤ j ∧ name p[j] = name p[i] ∧
      ∀ (k : Nat) (hk : k < p.length), j < k → name p[k] ≠ name p[i] := by
  let Q : Nat → Prop := fun k => p[k]?.map name = some (name p[i])
  have hQi : Q i := by simp [Q, List.getElem?_eq_getElem hi]
  have hle : i ≤ p.length - 1 := by omega
  obtain ⟨j, hjdef⟩ : ∃ j, j = Nat.findGreatest Q (p.length - 1) := ⟨_, rfl⟩
  have hspec : Q j := hjdef ▸ Nat.findGreatest_spec hle hQi
  have hjlt : j < p.length := by
    have := @Nat.findGreatest_le Q _ (p.length - 1)
    omega
  refine ⟨j, hjlt, hjdef ▸ Nat.le_findGreatest hle hQi, ?_, ?_⟩
  · simpa [Q, List.getElem?_eq_getElem hjlt] using hspec
  · intro k hk hjk e
    have hQk : Q k := by simp [Q, List.getElem?_eq_getElem hk, e]
    exact Nat.findGreatest_is_greatest (hjdef ▸ hjk) (by omega) hQk

/-- C3 fails as stated: with channels "A", "B" that share the marker "m", the
channel names are distinct, yet the marker lookup of the marker of column 0
returns 1, not 0. -/
theorem marker_lookup_roundtrip_fails :
    ([cytoParam.named "A" "m", cytoParam.named "B" "m"].map cytoParam.channel).Nodup ∧
    get_col_idx (build_hash { CytoFrame.empty with
        params := [cytoParam.named "A" "m", cytoParam.named "B" "m"] })
      ([cytoParam.named "A" "m", cytoParam.named "B" "m"][0]).marker .marker = .ok 1 ∧
    (Except.ok 1 : Except domain_error Int) ≠ .ok 0 := by
  decide

/-- C3, amended: when the channel names of `p` are pairwise distinct, after
the index is rebuilt from `p` the marker lookup of the marker at position `i`
returns the last position `j` that carries this marker name; it returns `i`
itself whenever no later column carries the same marker name. -/
theorem marker_lookup_last_position (f : CytoFrame) (p : List cytoParam)
    (hp : (p.map cytoParam.channel).Nodup) (i : Nat) (hi : i < p.length) :
    (∃ (j : Nat) (hj : j < p.length), i ≤ j ∧ p[j].marker = p[i].marker ∧
      (∀ (k : Nat) (hk : k < p.length), j < k → p[k].marker ≠ p[i].marker) ∧
      get_col_idx (build_hash { f with params := p }) p[i].marker .marker = .ok (j : Int)) ∧
    ((∀ (k : Nat) (hk : k < p.length), i < k → p[k].marker ≠ p[i].marker) →
      get_col_idx (build_hash { f with params := p }) p[i].marker .marker = .ok (i : Int)) := by
  have key : ∀ (j : Nat) (hj : j < p.length),
      (∀ (k : Nat) (hk : k < p.length), j < k → p[k].marker ≠ p[j].marker) →
      get_col_idx (build_hash { f with params := p }) p[j].marker .marker = .ok (j : Int) :=
    fun j hj hlast => get_col_idx_build_hash_marker { f with params := p } hp j hj hlast
  refine ⟨?_, key i hi⟩
  obtain ⟨j, hj, hij, hji, hlast⟩ := exists_last_position cytoParam.marker p i hi
  refine ⟨j, hj, hij, hji, hlast, ?_⟩
  rw [← hji]
  exact key j hj (fun k hk hjk => by rw [hji]; exact hlast k hk hjk)

/-- C3 amended, at the columns ("A", "m"), ("B", "m"): the marker of the last
column resolves to that column. -/
theorem marker_lookup_last_position_witness :
    get_col_idx (build_hash { CytoFrame.empty with
        params := [cytoParam.named "A" "m", cytoParam.named "B" "m"] }) "m" .marker = .ok 1 :=
  (marker_lookup_last_position CytoFrame.empty
    [cytoParam.named "A" "m", cytoParam.named "B" "m"] (by decide) 1 (by decide)).2
    (fun k hk h1 => absurd hk (by simp; omega))

/-- C4: on a writable frame with a built index, `set_channel` leaves the frame
exactly as it was when it returns as a no-op (the old name is a channel and
equals the new name), when it throws "colname already exists" (the old name is
a channel, the names differ and the new name is a channel too), and when it
throws "colname not found" (the old name is not a channel). -/
theorem set_channel_unchanged_cases (f : CytoFrame) (old new : String) (b : Bool)
    (hw : f.readonly_ = false) (hh : is_hashed f = true) :
    (∀ id : Int, 0 ≤ id → f.channel_vs_idx.find old = some id → old = new →
      set_channel f old new b = ⟨none, f⟩) ∧
    (∀ id id2 : Int, 0 ≤ id → f.channel_vs_idx.find old = some id → old ≠ new →
      0 ≤ id2 → f.channel_vs_idx.find new = some id2 →
      set_channel f old new b = ⟨some ⟨"colname already exists: " ++ new⟩, f⟩) ∧
    (f.channel_vs_idx.find old = none →
      set_channel f old new b = ⟨some ⟨"colname not found: " ++ old⟩, f⟩) := by
  refine ⟨?_, ?_, ?_⟩
  · intro id hid hold he
    have h1 := get_col_idx_channel_of_find f old id hh hold
    have h3 : ¬ id < 0 := by omega
    subst he
    simp [set_channel, check_write_permission, hw, h1, h3]
  · intro id id2 hid hold hne hid2 hnew
    have h1 := get_col_idx_channel_of_find f old id hh hold
    have h2 := get_col_idx_channel_of_find f new id2 hh hnew
    have h3 : ¬ id < 0 := by omega
    simp [set_channel, check_write_permission, hw, h1, h2, h3, hne, hid2]
  · intro hold
    have h1 := get_col_idx_channel_of_none f old hh hold
    simp [set_channel, check_write_permission, hw, h1]

/-- C4 at the frame with channels "A" and "B": renaming "A" to "B" throws and
changes nothing. -/
theorem set_channel_unchanged_cases_witness :
    set_channel (CytoFrame.of_params [cytoParam.named "A" "m", cytoParam.named "B" "n"])
        "A" "B" true
      = ⟨some ⟨"colname already exists: " ++ "B"⟩,
          CytoFrame.of_params [cytoParam.named "A" "m", cytoParam.named "B" "n"]⟩ :=
  (set_channel_unchanged_cases
    (CytoFrame.of_params [cytoParam.named "A" "m", cytoParam.named "B" "n"]) "A" "B" true
    (by decide) (by decide)).2.1 0 1 (by decide) (by decide) (by decide) (by decide) (by decide)

/-- A text occurs in every text that starts with it. -/
theorem occurs_in_append (pat rest : List Char) : occurs_in pat (pat ++ rest) = true := by
  cases h : pat ++ rest with
  | nil =>
    have : pat = [] := (List.append_eq_nil.1 h).1
    simp [occurs_in, this]
  | cons c cs =>
    have hp : pat.isPrefixOf (c :: cs) = true := by
      rw [← h]
      exact List.isPrefixOf_iff_prefix.2 (List.prefix_append pat rest)
    simp [occurs_in, hp]

/-- The message of the "colname not found" failure always passes the test
`set_channels` uses to recognise it. -/
theorem find_is_npos_not_found (oldname : String) :
    find_is_npos ("colname not found: " ++ oldname) "colname not found" = false := by
  have h : ("colname not found: " ++ oldname).data
      = "colname not found".data ++ (": ".data ++ oldname.data) := by
    rw [String.data_append, ← List.append_assoc]
    rfl
  unfold find_is_npos
  rw [h, occurs_in_append]
  rfl

/-- On a writable frame the bulk rename is its loop. -/
theorem set_channels_eq_loop (f : CytoFrame) (chnl_map : CHANNEL_MAP)
    (hw : f.readonly_ = false) : set_channels f chnl_map = set_channels_loop f chnl_map := by
  simp [set_channels, check_write_permission, hw]

/-- An entry whose old name is not a channel is skipped: the bulk rename goes
on with the remaining entries on the unchanged frame. -/
theorem set_channels_skips_not_found (f : CytoFrame) (old new : String) (rest : CHANNEL_MAP)
    (hw : f.readonly_ = false) (hh : is_hashed f = true)
    (hold : f.channel_vs_idx.find old = none) :
    set_channels f ((old, new) :: rest) = set_channels f rest := by
  have h1 := get_col_idx_channel_of_none f old hh hold
  have h2 : set_channel f old new true = ⟨some ⟨"colname not found: " ++ old⟩, f⟩ := by
    simp [set_channel, check_write_permission, hw, h1]
  rw [set_channels_eq_loop _ _ hw, set_channels_eq_loop _ _ hw, set_channels_loop, h2]
  simp [find_is_npos_not_found]

/-- On a writable frame whose index is not built the bulk rename re-raises the
failure of its first entry. -/
theorem set_channels_reraises_not_hashed (f : CytoFrame) (old new : String)
    (rest : CHANNEL_MAP) (hw : f.readonly_ = false) (hh : is_hashed f = false) :
    set_channels f ((old, new) :: rest) = ⟨some not_hashed_error, f⟩ := by
  have h2 : set_channel f old new true = ⟨some not_hashed_error, f⟩ := by
    simp [set_channel, check_write_permission, hw, get_col_idx, hh]
  have h3 : find_is_npos not_hashed_error.what "colname not found" = true := by decide
  rw [set_channels_eq_loop _ _ hw, set_channels_loop, h2]
  simp [h3]

/-- An entry that fails because its new name is taken is re-raised, with the
frame as it was before the entry, when the message of that failure does not
contain the text "colname not found". -/
theorem set_channels_reraises_already_exists (f : CytoFrame) (old new : String)
    (rest : CHANNEL_MAP) (id id2 : Int) (hw : f.readonly_ = false) (hh : is_hashed f = true)
    (hid : 0 ≤ id) (hold : f.channel_vs_idx.find old = some id) (hne : old ≠ new)
    (hid2 : 0 ≤ id2) (hnew : f.channel_vs_idx.find new = some id2)
    (hmsg : find_is_npos ("colname already exists: " ++ new) "colname not found" = true) :
    set_channels f ((old, new) :: rest) = ⟨some ⟨"colname already exists: " ++ new⟩, f⟩ := by
  have h1 := get_col_idx_channel_of_find f old id hh hold
  have h2 := get_col_idx_channel_of_find f new id2 hh hnew
  have h3 : ¬ id < 0 := by omega
  have h4 : set_channel f old new true = ⟨some ⟨"colname already exists: " ++ new⟩, f⟩ := by
    simp [set_channel, check_write_permission, hw, h1, h2, h3, hne, hid2]
  rw [set_channels_eq_loop _ _ hw, set_channels_loop, h4]
  simp [hmsg]

/-- An entry that renames is applied, and the bulk rename goes on with the
remaining entries on the renamed frame. -/
theorem set_channels_applies (f : CytoFrame) (old new : String) (rest : CHANNEL_MAP)
    (hw : f.readonly_ = false) (hs : (set_channel f old new true).thrown = none) :
    set_channels f ((old, new) :: rest)
      = set_channels_loop (set_channel f old new true).frame rest := by
  rw [set_channels_eq_loop _ _ hw, set_channels_loop]
  simp [hs]

/-- C7, the code at the failing input: on the frame with channels "A", "B"
and "colname not found", renaming "A" to "colname not found" fails with the
"colname already exists" error; the bulk rename over the entries
("A", "colname not found"), ("B", "C") nevertheless swallows that failure,
goes on to rename "B" to "C" and returns normally, and it returns normally
too when the loop visits the two entries in the other order. -/
theorem set_channels_swallows_already_exists :
    (set_channel
        (CytoFrame.of_params [cytoParam.named "A" "", cytoParam.named "B" "",
          cytoParam.named "colname not found" ""])
        "A" "colname not found" true).thrown
      = some ⟨"colname already exists: colname not found"⟩ ∧
    set_channels
        (CytoFrame.of_params [cytoParam.named "A" "", cytoParam.named "B" "",
          cytoParam.named "colname not found" ""])
        [("A", "colname not found"), ("B", "C")]
      = ⟨none, (set_channel
          (CytoFrame.of_params [cytoParam.named "A" "", cytoParam.named "B" "",
            cytoParam.named "colname not found" ""])
          "B" "C" true).frame⟩ ∧
    get_col_idx (set_channels
        (CytoFrame.of_params [cytoParam.named "A" "", cytoParam.named "B" "",
          cytoParam.named "colname not found" ""])
        [("A", "colname not found"), ("B", "C")]).frame "C" .channel = .ok 1 ∧
    (set_channels
        (CytoFrame.of_params [cytoParam.named "A" "", cytoParam.named "B" "",
          cytoParam.named "colname not found" ""])
        [("B", "C"), ("A", "colname not found")]).thrown = none := by
  decide

/-- C8: on a frame whose read-only flag is set, every mutating member function
throws the read-only error and leaves the frame as it was, whatever its
arguments; and once `set_readonly(false)` has cleared the flag the guard
passes, the frame differs from the guarded one in the flag only, and every
such call on a frame that was guarded and released gives what it gives on the
frame that was never guarded. -/
theorem read_only_guard :
    (∀ f : CytoFrame, f.readonly_ = true →
      (∀ p, set_params f p false = ⟨some readonly_error, f⟩) ∧
      (∀ col_idx, subset_parameters f col_idx = ⟨some readonly_error, f⟩) ∧
      (∀ keys, set_keywords f keys = ⟨some readonly_error, f⟩) ∧
      (∀ key value, set_keyword f key value = ⟨some readonly_error, f⟩) ∧
      (∀ name value, set_pheno_data f name value = ⟨some readonly_error, f⟩) ∧
      (∀ pd, set_pheno_data_all f pd = ⟨some readonly_error, f⟩) ∧
      (∀ name, del_pheno_data f name = ⟨some readonly_error, f⟩) ∧
      (∀ old new b, set_channel f old new b = ⟨some readonly_error, f⟩) ∧
      (∀ chnl_map, set_channels f chnl_map = ⟨some readonly_error, f⟩) ∧
      (∀ old new, set_marker f old new = ⟨some readonly_error, f⟩) ∧
      (∀ lexical_cast colname ctype new_range b,
        set_range lexical_cast f colname ctype new_range b = ⟨some readonly_error, f⟩) ∧
      check_write_permission (set_readonly f false) = .ok () ∧
      set_readonly f false = { f with readonly_ := false }) ∧
    (∀ g : CytoFrame, g.readonly_ = false →
      set_readonly (set_readonly g true) false = g ∧
      (∀ p, set_params (set_readonly (set_readonly g true) false) p false
        = set_params g p false) ∧
      (∀ col_idx, subset_parameters (set_readonly (set_readonly g true) false) col_idx
        = subset_parameters g col_idx) ∧
      (∀ keys, set_keywords (set_readonly (set_readonly g true) false) keys
        = set_keywords g keys) ∧
      (∀ key value, set_keyword (set_readonly (set_readonly g true) false) key value
        = set_keyword g key value) ∧
      (∀ name value, set_pheno_data (set_readonly (set_readonly g true) false) name value
        = set_pheno_data g name value) ∧
      (∀ pd, set_pheno_data_all (set_readonly (set_readonly g true) false) pd
        = set_pheno_data_all g pd) ∧
      (∀ name, del_pheno_data (set_readonly (set_readonly g true) false) name
        = del_pheno_data g name) ∧
      (∀ old new b, set_channel (set_readonly (set_readonly g true) false) old new b
        = set_channel g old new b) ∧
      (∀ chnl_map, set_channels (set_readonly (set_readonly g true) false) chnl_map
        = set_channels g chnl_map) ∧
      (∀ old new, set_marker (set_readonly (set_readonly g true) false) old new
        = set_marker g old new) ∧
      (∀ lexical_cast colname ctype new_range b,
        set_range lexical_cast (set_readonly (set_readonly g true) false) colname ctype
            new_range b
          = set_range lexical_cast g colname ctype new_range b)) := by
  constructor
  · intro f hr
    refine ⟨?_, ?_, ?_, ?_, ?_, ?_, ?_, ?_, ?_, ?_, ?_, rfl, rfl⟩
    · intro p; simp [set_params, check_write_permission, hr]
    · intro c; simp [subset_parameters, set_params, check_write_permission, hr]
    · intro k; simp [set_keywords, check_write_permission, hr]
    · intro k v; simp [set_keyword, check_write_permission, hr]
    · intro k v; simp [set_pheno_data, check_write_permission, hr]
    · intro pd; simp [set_pheno_data_all, check_write_permission, hr]
    · intro k; simp [del_pheno_data, check_write_permission, hr]
    · intro o n b; simp [set_channel, check_write_permission, hr]
    · intro m; simp [set_channels, check_write_permission, hr]
    · intro o n; simp [set_marker, check_write_permission, hr]
    · intro lc c t r b; simp [set_range, check_write_permission, hr]
  · intro g hg
    have h : set_readonly (set_readonly g true) false = g := by
      cases g
      simp only [set_readonly] at hg ⊢
      simp_all
    rw [h]
    simp

/-- C8 at the guarded frame with the single channel "A": setting a keyword
throws the read-only error and changes nothing. -/
theorem read_only_guard_witness :
    set_keyword (set_readonly (CytoFrame.of_params [cytoParam.named "A" "m"]) true) "k" "v"
      = ⟨some readonly_error,
          set_readonly (CytoFrame.of_params [cytoParam.named "A" "m"]) true⟩ :=
  (read_only_guard.1 (set_readonly (CytoFrame.of_params [cytoParam.named "A" "m"]) true)
    (by decide)).2.2.2.1 "k" "v"

/-! ## Comparing hash maps -/

theorem Entries.mem_of_find_eq_some {V : Type} (l : Entries V) (k : String) (v : V)
    (h : Entries.find l k = some v) : (k, v) ∈ l := by
  induction l with
  | nil => simp [Entries.find] at h
  | cons e rest ih =>
    obtain ⟨k1, v1⟩ := e
    by_cases h1 : k1 = k
    · subst h1
      simp only [Entries.find, if_true, Option.some.injEq] at h
      subst h
      exact List.mem_cons_self _ _
    · simp only [Entries.find, h1, if_false] at h
      exact List.mem_cons_of_mem _ (ih h)

theorem Entries.find_eq_some_of_mem {V : Type} (l : Entries V) (k : String) (v : V)
    (hn : (Entries.keys l).Nodup) (h : (k, v) ∈ l) : Entries.find l k = some v := by
  induction l with
  | nil => simp at h
  | cons e rest ih =>
    obtain ⟨k1, v1⟩ := e
    have hn2 : k1 ∉ Entries.keys rest ∧ (Entries.keys rest).Nodup := by
      simpa [Entries.keys] using hn
    rcases List.mem_cons.1 h with h1 | h1
    · cases h1
      simp [Entries.find]
    · have hk : k ∈ Entries.keys rest := List.mem_map.2 ⟨(k, v), h1, rfl⟩
      have hne : ¬ k1 = k := fun e => hn2.1 (e ▸ hk)
      simp only [Entries.find, hne, if_false]
      exact ih hn2.2 h1

namespace unordered_map
variable {V : Type}

theorem mem_keys_iff (m : unordered_map V) (k : String) :
    k ∈ Entries.keys m.entries ↔ ∃ v, m.find k = some v := by
  constructor
  · intro h
    cases hf : m.find k with
    | none => exact absurd h ((Entries.find_eq_none_iff m.entries k).1 hf)
    | some v => exact ⟨v, rfl⟩
  · rintro ⟨v, hv⟩
    by_contra hc
    have := (Entries.find_eq_none_iff m.entries k).2 hc
    simp only [find] at hv
    rw [hv] at this
    exact Option.noConfusion this

/-- Maps that agree under every key have the same size. -/
theorem size_eq_of_find_eq (a b : unordered_map V) (h : ∀ k, a.find k = b.find k) :
    a.size = b.size := by
  have hperm : (Entries.keys a.entries).Perm (Entries.keys b.entries) := by
    rw [List.perm_ext_iff_of_nodup a.distinct b.distinct]
    intro k
    rw [mem_keys_iff, mem_keys_iff, h k]
  simpa [size, Entries.keys] using hperm.length_eq

/-- The comparison of two maps succeeds exactly when they agree under every
key. -/
theorem equal_iff [DecidableEq V] (a b : unordered_map V) :
    a.equal b = true ↔ ∀ k, a.find k = b.find k := by
  constructor
  · intro h
    simp only [equal, Bool.and_eq_true, beq_iff_eq, List.all_eq_true] at h
    obtain ⟨hsize, hall⟩ := h
    have hsub : Entries.keys a.entries ⊆ Entries.keys b.entries := by
      intro k hk
      obtain ⟨v, hv⟩ := (mem_keys_iff a k).1 hk
      have := hall (k, v) (Entries.mem_of_find_eq_some _ _ _ hv)
      exact (mem_keys_iff b k).2 ⟨v, this⟩
    have hperm : (Entries.keys a.entries).Perm (Entries.keys b.entries) :=
      (List.subperm_of_subset a.distinct hsub).perm_of_length_le (by
        simp only [size] at hsize
        simp [Entries.keys, hsize])
    intro k
    cases hf : a.find k with
    | some v => exact (hall (k, v) (Entries.mem_of_find_eq_some _ _ _ hf)).symm
    | none =>
      have hk : k ∉ Entries.keys a.entries := (Entries.find_eq_none_iff _ _).1 hf
      have hk2 : k ∉ Entries.keys b.entries := fun hc => hk (hperm.mem_iff.2 hc)
      exact ((Entries.find_eq_none_iff _ _).2 hk2).symm
  · intro h
    simp only [equal, Bool.and_eq_true, beq_iff_eq, List.all_eq_true]
    refine ⟨size_eq_of_find_eq a b h, ?_⟩
    intro e he
    rw [← h e.1]
    exact Entries.find_eq_some_of_mem _ _ _ a.distinct he

end unordered_map

/-! ## The index and the descriptors -/

theorem unordered_map.size_assign_le {V : Type} (m : unordered_map V) (k : String) (v : V) :
    (m.assign k v).size ≤ m.size + 1 := by
  cases h : m.find k with
  | none => rw [unordered_map.size_assign_of_none m k v h]
  | some w => rw [unordered_map.size_assign_of_some m k v w h]; omega

theorem size_index_loop_le (name : cytoParam → String) (ps : List cytoParam) (i : Nat)
    (c : unordered_map Int) : (index_loop name ps i c).size ≤ c.size + ps.length := by
  induction ps generalizing i c with
  | nil => simp [index_loop]
  | cons p ps ih =>
    have h1 := ih (i + 1) (c.assign (name p) i)
    have h2 := unordered_map.size_assign_le c (name p) (i : Int)
    simp only [index_loop, List.length_cons]
    omega

/-- The loop adds one entry per descriptor only if the names are pairwise
distinct and none of them was in the map before. -/
theorem nodup_of_size_index_loop (name : cytoParam → String) (ps : List cytoParam) (i : Nat)
    (c : unordered_map Int) (h : (index_loop name ps i c).size = c.size + ps.length) :
    (ps.map name).Nodup ∧ ∀ q ∈ ps, c.find (name q) = none := by
  induction ps generalizing i c with
  | nil => simp
  | cons p ps ih =>
    have h1 := size_index_loop_le name ps (i + 1) (c.assign (name p) i)
    have h2 := unordered_map.size_assign_le c (name p) (i : Int)
    simp only [index_loop, List.length_cons] at h
    have h3 : (c.assign (name p) i).size = c.size + 1 := by omega
    have h4 : (index_loop name ps (i + 1) (c.assign (name p) i)).size
        = (c.assign (name p) i).size + ps.length := by omega
    obtain ⟨hn, hfresh⟩ := ih (i + 1) (c.assign (name p) i) h4
    have hp : c.find (name p) = none := by
      cases hf : c.find (name p) with
      | none => rfl
      | some w =>
        have := unordered_map.size_assign_of_some c (name p) (i : Int) w hf
        omega
    have hnot : name p ∉ ps.map name := by
      intro hmem
      obtain ⟨q, hq, hqn⟩ := List.mem_map.1 hmem
      have := hfresh q hq
      rw [hqn, unordered_map.find_assign_self] at this
      exact Option.noConfusion this
    refine ⟨List.nodup_cons.2 ⟨hnot, hn⟩, ?_⟩
    intro q hq
    rcases List.mem_cons.1 hq with hq | hq
    · rw [hq]; exact hp
    · have hne : name q ≠ name p := fun e => hnot (List.mem_map.2 ⟨q, hq, e⟩)
      have := hfresh q hq
      rwa [unordered_map.find_assign_ne _ _ _ _ hne] at this

/-- The maps `build_hash` makes depend on the names only. -/
theorem index_loop_congr (name : cytoParam → String) (ps qs : List cytoParam) (i : Nat)
    (c : unordered_map Int) (h : ps.map name = qs.map name) :
    index_loop name ps i c = index_loop name qs i c := by
  induction ps generalizing qs i c with
  | nil =>
    cases qs with
    | nil => rfl
    | cons q qs => simp at h
  | cons p ps ih =>
    cases qs with
    | nil => simp at h
    | cons q qs =>
      simp only [List.map_cons, List.cons.injEq] at h
      simp only [index_loop, h.1]
      exact ih qs _ _ h.2

/-- With pairwise distinct names, the map built from the descriptors holds
`j` under `k` exactly when position `j` carries the name `k`. -/
theorem find_index_loop_iff (name : cytoParam → String) (ps : List cytoParam)
    (hn : (ps.map name).Nodup) (k : String) (v : Int) :
    (index_loop name ps 0 unordered_map.clear).find k = some v
      ↔ ∃ (j : Nat) (hj : j < ps.length), v = (j : Int) ∧ name ps[j] = k := by
  have huniq : ∀ (a b : Nat) (ha : a < ps.length) (hb : b < ps.length),
      name ps[a] = name ps[b] → a = b := by
    intro a b ha hb e
    have ha2 : a < (ps.map name).length := by simpa using ha
    have hb2 : b < (ps.map name).length := by simpa using hb
    exact (@List.Nodup.getElem_inj_iff _ _ hn a ha2 b hb2).1 (by simpa using e)
  have hat : ∀ (j : Nat) (hj : j < ps.length),
      (index_loop name ps 0 unordered_map.clear).find (name ps[j]) = some (j : Int) := by
    intro j hj
    have := find_index_loop_of_last name ps 0 unordered_map.clear j hj (by
      intro a ha hja e
      have := huniq a j ha hj e
      omega)
    simpa using this
  constructor
  · intro h
    by_cases hk : k ∈ ps.map name
    · obtain ⟨q, hq, hqk⟩ := List.mem_map.1 hk
      obtain ⟨j, hj, hjq⟩ := List.getElem_of_mem hq
      refine ⟨j, hj, ?_, by rw [hjq, hqk]⟩
      have := hat j hj
      rw [hjq, hqk, h] at this
      exact Option.some.inj this
    · rw [find_index_loop_of_not_mem name ps 0 _ k hk] at h
      exact Option.noConfusion h
  · rintro ⟨j, hj, hv, hjk⟩
    rw [← hjk, hv]
    exact hat j hj

theorem is_hashed_of_get_col_idx (f : CytoFrame) (name : String) (t : ColType) (v : Int)
    (h : get_col_idx f name t = .ok v) : is_hashed f = true := by
  cases hh : is_hashed f with
  | true => rfl
  | false => simp [get_col_idx, hh] at h

/-- What a `set_channel` call that returns normally has found and done. -/
theorem set_channel_success_cases (f : CytoFrame) (old new : String) (b : Bool)
    (hs : (set_channel f old new b).thrown = none) :
    f.readonly_ = false ∧ is_hashed f = true ∧
    ∃ id : Int, 0 ≤ id ∧ get_col_idx f old .channel = .ok id ∧
      ((old = new ∧ (set_channel f old new b).frame = f) ∨
       (old ≠ new ∧ (∃ id2 : Int, id2 < 0 ∧ get_col_idx f new .channel = .ok id2) ∧
        (set_channel f old new b).frame =
          { f with
            params := f.params.modify (fun p => { p with channel := new }) id.toNat
            channel_vs_idx := (f.channel_vs_idx.erase old).assign new id
            keys_ := if b then f.keys_.map_values (fun v => if v = old then new else v)
                     else f.keys_ })) := by
  cases hw : f.readonly_ with
  | true => simp [set_channel, check_write_permission, hw] at hs
  | false =>
    cases hg : get_col_idx f old .channel with
    | error e => simp [set_channel, check_write_permission, hw, hg] at hs
    | ok id =>
      have hh := is_hashed_of_get_col_idx f old .channel id hg
      by_cases hid : id < 0
      · simp [set_channel, check_write_permission, hw, hg, hid] at hs
      · refine ⟨rfl, hh, id, by omega, rfl, ?_⟩
        by_cases hne : old = new
        · left
          subst hne
          refine ⟨rfl, ?_⟩
          simp [set_channel, check_write_permission, hw, hg, hid]
        · right
          cases hg2 : get_col_idx f new .channel with
          | error e => simp [set_channel, check_write_permission, hw, hg, hid, hne, hg2] at hs
          | ok id2 =>
            by_cases hid2 : id2 ≥ 0
            · simp [set_channel, check_write_permission, hw, hg, hid, hne, hg2, hid2] at hs
            · refine ⟨hne, ⟨id2, by omega, rfl⟩, ?_⟩
              cases b <;> simp [set_channel, check_write_permission, hw, hg, hid, hne, hg2, hid2]

theorem find_of_get_col_idx_channel (f : CytoFrame) (name : String) (v : Int) (hv : 0 ≤ v)
    (h : get_col_idx f name .channel = .ok v) : f.channel_vs_idx.find name = some v := by
  have hh := is_hashed_of_get_col_idx f name .channel v h
  cases hf : f.channel_vs_idx.find name with
  | none =>
    simp [get_col_idx, hh, hf] at h
    omega
  | some w =>
    simp [get_col_idx, hh, hf] at h
    rw [h]

theorem map_marker_modify_channel (ps : List cytoParam) (j : Nat) (new : String) :
    (ps.modify (fun p => { p with channel := new }) j).map cytoParam.marker
      = ps.map cytoParam.marker := by
  apply List.ext_getElem?
  intro a
  simp only [List.getElem?_map, List.getElem?_modify]
  cases ps[a]? with
  | none => rfl
  | some d => by_cases h : j = a <;> simp [h]

theorem map_channel_modify_channel (ps : List cytoParam) (j : Nat) (new : String)
    (hj : j < ps.length) :
    (ps.modify (fun p => { p with channel := new }) j).map cytoParam.channel
      = (ps.map cytoParam.channel).set j new := by
  rw [List.modify_eq_set_get _ hj, List.map_set]

/-- A successful `set_channel` on a frame whose index is consistent leaves a
frame whose index is consistent. -/
theorem set_channel_keeps_index_consistent (f : CytoFrame) (old new : String) (b : Bool)
    (hc : index_consistent f = true) (hs : (set_channel f old new b).thrown = none) :
    index_consistent (set_channel f old new b).frame = true := by
  obtain ⟨-, hh, id, hid, hg, hcase⟩ := set_channel_success_cases f old new b hs
  rcases hcase with ⟨-, hf⟩ | ⟨hne, ⟨id2, hid2, hg2⟩, hf⟩
  · rw [hf]; exact hc
  · simp only [index_consistent, Bool.and_eq_true, unordered_map.equal_iff,
      build_hash_channel_vs_idx, build_hash_marker_vs_idx] at hc
    obtain ⟨hC, hM⟩ := hc
    have hsize : (index_loop cytoParam.channel f.params 0 unordered_map.clear).size
        = (unordered_map.clear : unordered_map Int).size + f.params.length := by
      rw [← unordered_map.size_eq_of_find_eq _ _ hC, unordered_map.size_clear]
      simp only [is_hashed, n_cols, beq_iff_eq] at hh
      omega
    have hn := (nodup_of_size_index_loop _ _ _ _ hsize).1
    have hfo := find_of_get_col_idx_channel f old id hid hg
    rw [hC old] at hfo
    obtain ⟨j, hj, hidj, hjold⟩ := (find_index_loop_iff cytoParam.channel f.params hn old id).1 hfo
    subst hidj
    have hfn : f.channel_vs_idx.find new = none := by
      cases hfind : f.channel_vs_idx.find new with
      | none => rfl
      | some w =>
        have h1 := get_col_idx_channel_of_find f new w hh hfind
        rw [hg2] at h1
        have hw : id2 = w := by injection h1
        rw [hC new] at hfind
        obtain ⟨a, _, hwa, _⟩ :=
          (find_index_loop_iff cytoParam.channel f.params hn new w).1 hfind
        omega
    have hnew : new ∉ f.params.map cytoParam.channel := by
      intro hmem
      obtain ⟨q, hq, hqn⟩ := List.mem_map.1 hmem
      obtain ⟨a, ha, haq⟩ := List.getElem_of_mem hq
      have := (find_index_loop_iff cytoParam.channel f.params hn new (a : Int)).2
        ⟨a, ha, rfl, by rw [haq, hqn]⟩
      rw [← hC new, hfn] at this
      exact Option.noConfusion this
    have hn2 : ((f.params.modify (fun p => { p with channel := new }) j).map
        cytoParam.channel).Nodup := by
      rw [map_channel_modify_channel _ _ _ hj]
      exact List.Nodup.set hn hnew
    have hch : ∀ (a : Nat) (ha : a < f.params.length)
        (ha2 : a < (f.params.modify (fun p => { p with channel := new }) j).length),
        (f.params.modify (fun p => { p with channel := new }) j)[a].channel
          = if j = a then new else f.params[a].channel := by
      intro a ha ha2
      rw [List.getElem_modify]
      by_cases h : j = a <;> simp [h]
    rw [hf]
    simp only [index_consistent, Bool.and_eq_true, unordered_map.equal_iff,
      build_hash_channel_vs_idx, build_hash_marker_vs_idx, Int.toNat_ofNat]
    constructor
    · intro k
      apply Option.ext
      intro v
      simp only [Option.mem_def]
      rw [find_index_loop_iff cytoParam.channel _ hn2 k v]
      by_cases hk1 : k = new
      · subst hk1
        rw [unordered_map.find_assign_self]
        constructor
        · intro h
          refine ⟨j, by simpa using hj, (Option.some.inj h).symm, ?_⟩
          rw [hch j hj (by simpa using hj)]; simp
        · rintro ⟨a, ha, hv, hak⟩
          have ha2 : a < f.params.length := by simpa using ha
          rw [hch a ha2 ha] at hak
          by_cases hja : j = a
          · rw [hv, hja]
          · rw [if_neg hja] at hak
            exact absurd (List.mem_map.2 ⟨_, List.getElem_mem ha2, hak⟩) hnew
      · rw [unordered_map.find_assign_ne _ _ _ _ hk1]
        by_cases hk2 : k = old
        · subst hk2
          rw [unordered_map.find_erase_self]
          constructor
          · intro h; exact Option.noConfusion h
          · rintro ⟨a, ha, hv, hak⟩
            have ha2 : a < f.params.length := by simpa using ha
            rw [hch a ha2 ha] at hak
            by_cases hja : j = a
            · rw [if_pos hja] at hak
              exact absurd hak.symm hne
            · rw [if_neg hja, ← hjold] at hak
              exact absurd (channel_position_unique f.params hn a j ha2 hj hak).symm hja
        · rw [unordered_map.find_erase_ne _ _ _ hk2, hC k,
            find_index_loop_iff cytoParam.channel _ hn k v]
          constructor
          · rintro ⟨a, ha, hv, hak⟩
            refine ⟨a, by simpa using ha, hv, ?_⟩
            rw [hch a ha (by simpa using ha)]
            have hja : j ≠ a := by
              intro e
              subst e
              rw [hjold] at hak
              exact hk2 hak.symm
            rw [if_neg hja, hak]
          · rintro ⟨a, ha, hv, hak⟩
            have ha2 : a < f.params.length := by simpa using ha
            rw [hch a ha2 ha] at hak
            by_cases hja : j = a
            · rw [if_pos hja] at hak
              exact absurd hak.symm hk1
            · rw [if_neg hja] at hak
              exact ⟨a, ha2, hv, hak⟩
    · intro k
      rw [hM k, index_loop_congr cytoParam.marker _ _ 0 _
        (map_marker_modify_channel f.params j new)]

/-- C9, the code at the failing input: the writable frame with columns
("A", "m") and ("B", "m") has a consistent index; `set_marker("m", "x")`
succeeds and renames the marker of column 1 only, yet the index it leaves is
not consistent: the marker map has no entry for "m", while `build_hash` on the
updated descriptors maps "m" to column 0. -/
theorem set_marker_leaves_stale_index :
    index_consistent
      (CytoFrame.of_params [cytoParam.named "A" "m", cytoParam.named "B" "m"]) = true ∧
    (CytoFrame.of_params [cytoParam.named "A" "m", cytoParam.named "B" "m"]).readonly_
      = false ∧
    (set_marker (CytoFrame.of_params [cytoParam.named "A" "m", cytoParam.named "B" "m"])
      "m" "x").thrown = none ∧
    (set_marker (CytoFrame.of_params [cytoParam.named "A" "m", cytoParam.named "B" "m"])
      "m" "x").frame.params = [cytoParam.named "A" "m", cytoParam.named "B" "x"] ∧
    index_consistent (set_marker
      (CytoFrame.of_params [cytoParam.named "A" "m", cytoParam.named "B" "m"])
      "m" "x").frame = false ∧
    (set_marker (CytoFrame.of_params [cytoParam.named "A" "m", cytoParam.named "B" "m"])
      "m" "x").frame.marker_vs_idx.find "m" = none ∧
    (build_hash (set_marker
      (CytoFrame.of_params [cytoParam.named "A" "m", cytoParam.named "B" "m"])
      "m" "x").frame).marker_vs_idx.find "m" = some 0 := by
  decide

/-- The descriptors `subset_parameters` selects have pairwise distinct channel
names when the frame has and the positions are valid and distinct. -/
theorem nodup_channel_subset (ps : List cytoParam) (col_idx : List Nat)
    (hc : (ps.map cytoParam.channel).Nodup) (hv : ∀ j ∈ col_idx, j < ps.length)
    (hd : col_idx.Nodup) :
    ((col_idx.map (fun j => ps.getD j default)).map cytoParam.channel).Nodup := by
  rw [List.map_map]
  refine List.Nodup.map_on ?_ hd
  intro x hx y hy e
  have hx2 := hv x hx
  have hy2 := hv y hy
  simp only [Function.comp, List.getD_eq_getElem _ _ hx2, List.getD_eq_getElem _ _ hy2] at e
  exact channel_position_unique ps hc x y hx2 hy2 e

/-- C10 fails as stated, at the writable frame made from two descriptors that
share the channel "A". With the single valid position 0 kept, the channel of
the dropped descriptor, the one at position 1, resolves to position 0 and not
to not-found. With the valid, distinct positions 0 and 1 kept, the index is
not built and the channel of the descriptor kept at position 0 does not
resolve: its lookup throws the index-not-built error. -/
theorem subset_parameters_shared_channel :
    (CytoFrame.of_params [cytoParam.named "A" "x", cytoParam.named "A" "y"]).readonly_
      = false ∧
    (∀ j ∈ ([0] : List Nat),
      j < (CytoFrame.of_params
        [cytoParam.named "A" "x", cytoParam.named "A" "y"]).params.length) ∧
    ([0] : List Nat).Nodup ∧
    1 ∉ ([0] : List Nat) ∧
    (CytoFrame.of_params [cytoParam.named "A" "x", cytoParam.named "A" "y"]).params[1]?
      = some (cytoParam.named "A" "y") ∧
    get_col_idx (subset_parameters
        (CytoFrame.of_params [cytoParam.named "A" "x", cytoParam.named "A" "y"]) [0]).frame
      (cytoParam.named "A" "y").channel .channel = .ok 0 ∧
    get_col_idx (subset_parameters
        (CytoFrame.of_params [cytoParam.named "A" "x", cytoParam.named "A" "y"]) [0]).frame
      (cytoParam.named "A" "y").channel .channel ≠ .ok (-1) ∧
    (∀ j ∈ ([0, 1] : List Nat),
      j < (CytoFrame.of_params
        [cytoParam.named "A" "x", cytoParam.named "A" "y"]).params.length) ∧
    ([0, 1] : List Nat).Nodup ∧
    (CytoFrame.of_params [cytoParam.named "A" "x", cytoParam.named "A" "y"]).params[0]?
      = some (cytoParam.named "A" "x") ∧
    get_col_idx (subset_parameters
        (CytoFrame.of_params [cytoParam.named "A" "x", cytoParam.named "A" "y"]) [0, 1]).frame
      (cytoParam.named "A" "x").channel .channel = .error not_hashed_error ∧
    get_col_idx (subset_parameters
        (CytoFrame.of_params [cytoParam.named "A" "x", cytoParam.named "A" "y"]) [0, 1]).frame
      (cytoParam.named "A" "x").channel .channel ≠ .ok ((0 : Nat) : Int) := by
  decide

/-- C10, amended: on a writable frame, for valid, pairwise distinct positions
`col_idx`, `subset_parameters` succeeds; the new descriptor list has the length
of `col_idx` and its `i`-th descriptor is the former descriptor at position
`col_idx[i]`; keywords and pheno data are unchanged; and, when the channel
names of the kept descriptors are pairwise distinct, the channel of each kept
descriptor resolves to its new position and each channel name of the former
frame that no kept descriptor carries is not found. -/
theorem subset_parameters_spec (f : CytoFrame) (col_idx : List Nat)
    (hw : f.readonly_ = false) (hv : ∀ j ∈ col_idx, j < f.params.length)
    (_hd : col_idx.Nodup) :
    (subset_parameters f col_idx).thrown = none ∧
    (subset_parameters f col_idx).frame.params.length = col_idx.length ∧
    (∀ (i : Nat) (hi : i < col_idx.length),
      (subset_parameters f col_idx).frame.params[i]? = f.params[col_idx[i]]?) ∧
    (subset_parameters f col_idx).frame.keys_ = f.keys_ ∧
    (subset_parameters f col_idx).frame.pheno_data_ = f.pheno_data_ ∧
    (((subset_parameters f col_idx).frame.params.map cytoParam.channel).Nodup →
      (∀ (i : Nat) (hi : i < col_idx.length) (d : cytoParam),
        f.params[col_idx[i]]? = some d →
        get_col_idx (subset_parameters f col_idx).frame d.channel .channel = .ok (i : Int)) ∧
      (∀ (j : Nat) (d : cytoParam), f.params[j]? = some d →
        d.channel ∉ (subset_parameters f col_idx).frame.params.map cytoParam.channel →
        get_col_idx (subset_parameters f col_idx).frame d.channel .channel = .ok (-1))) := by
  have hsub : subset_parameters f col_idx
      = ⟨none, build_hash { f with params := col_idx.map (fun j => f.params.getD j default) }⟩ := by
    simp [subset_parameters, set_params, check_write_permission, hw]
  have hget : ∀ (i : Nat) (hi : i < col_idx.length),
      (col_idx.map (fun j => f.params.getD j default))[i]? = f.params[col_idx[i]]? := by
    intro i hi
    have hval := hv col_idx[i] (List.getElem_mem hi)
    simp [List.getElem?_eq_getElem hi, List.getD_eq_getElem _ _ hval,
      List.getElem?_eq_getElem hval]
  rw [hsub]
  refine ⟨rfl, by simp [build_hash_params], fun i hi => hget i hi, rfl, rfl, ?_⟩
  simp only [build_hash_params]
  intro hn
  refine ⟨?_, ?_⟩
  · intro i hi d hdi
    have hi2 : i < (col_idx.map (fun j => f.params.getD j default)).length := by simpa using hi
    have h1 := get_col_idx_build_hash_channel
      { f with params := col_idx.map (fun j => f.params.getD j default) } hn i hi2
    have h2 : (col_idx.map (fun j => f.params.getD j default))[i] = d := by
      have := hget i hi
      rw [hdi, List.getElem?_eq_getElem hi2] at this
      exact Option.some.inj this
    simp only [h2] at h1
    exact h1
  · intro j d _ hj
    apply get_col_idx_channel_of_none _ _ (is_hashed_build_hash _ hn)
    rw [build_hash_channel_vs_idx]
    rw [find_index_loop_of_not_mem]
    · rfl
    · exact hj

/-- C10 amended, at the frame with channels "A", "B", "C" and the positions 2,
0: the channel "C" now resolves to position 0. -/
theorem subset_parameters_spec_witness :
    get_col_idx (subset_parameters
        (CytoFrame.of_params
          [cytoParam.named "A" "", cytoParam.named "B" "", cytoParam.named "C" ""])
        [2, 0]).frame (cytoParam.named "C" "").channel .channel = .ok ((0 : Nat) : Int) :=
  ((subset_parameters_spec
    (CytoFrame.of_params
      [cytoParam.named "A" "", cytoParam.named "B" "", cytoParam.named "C" ""])
    [2, 0] (by decide) (by decide) (by decide)).2.2.2.2.2 (by decide)).1 0 (by decide)
    (cytoParam.named "C" "") (by decide)

/-! ## Facts about `get_compensation` -/

/-- When every remaining token converts, the second loop of `get_compensation`
ends normally: the matrix keeps its length, the entries before position `k`
and after the last token stay, and the `i`-th token lands at position `k + i`
when that position exists. -/
theorem spill_loop_ok (to_double : String → Option Rat) (ts : List String) (k : Nat)
    (acc : List Rat) (hall : ∀ t ∈ ts, ∃ x, to_double t = some x) :
    ∃ sp, spill_loop to_double ts k acc = .ok sp ∧ sp.length = acc.length ∧
      (∀ j, j < k → sp[j]? = acc[j]?) ∧
      (∀ j, k + ts.length ≤ j → sp[j]? = acc[j]?) ∧
      (∀ (i : Nat) (hi : i < ts.length), k + i < acc.length → sp[k + i]? = to_double ts[i]) := by
  induction ts generalizing k acc with
  | nil =>
    exact ⟨acc, rfl, rfl, fun _ _ => rfl, fun _ _ => rfl, fun i hi => absurd hi (by simp)⟩
  | cons t ts ih =>
    obtain ⟨x, hx⟩ := hall t (List.mem_cons_self t ts)
    obtain ⟨sp, hsp, hlen, hbefore, hafter, hat⟩ :=
      ih (k + 1) (acc.set k x) (fun u hu => hall u (List.mem_cons_of_mem t hu))
    refine ⟨sp, ?_, ?_, ?_, ?_, ?_⟩
    · simp [spill_loop, hx, hsp]
    · simpa using hlen
    · intro j hj
      rw [hbefore j (by omega), List.getElem?_set_ne (by omega)]
    · intro j hj
      simp only [List.length_cons] at hj
      rw [hafter j (by omega), List.getElem?_set_ne (by omega)]
    · intro i hi hki
      cases i with
      | zero =>
        simp only [Nat.add_zero, List.getElem_cons_zero, hx]
        rw [hbefore k (by omega), List.getElem?_set_self (by omega)]
      | succ i =>
        have hi2 : i < ts.length := by simpa using hi
        have := hat i hi2 (by simp only [List.length_set]; omega)
        simp only [List.getElem_cons_succ]
        rw [← this]
        congr 1
        omega

/-- A token that does not convert makes the second loop of `get_compensation`
throw. -/
theorem spill_loop_error (to_double : String → Option Rat) (ts : List String) (k : Nat)
    (acc : List Rat) (hbad : ∃ t ∈ ts, to_double t = none) :
    spill_loop to_double ts k acc = .error .bad_lexical_cast := by
  induction ts generalizing k acc with
  | nil => obtain ⟨t, ht, _⟩ := hbad; simp at ht
  | cons t ts ih =>
    cases hx : to_double t with
    | none => simp [spill_loop, hx]
    | some x =>
      obtain ⟨u, hu, hun⟩ := hbad
      rcases List.mem_cons.1 hu with h | h
      · rw [h, hx] at hun; exact Option.noConfusion hun
      · simp only [spill_loop, hx]
        exact ih (k + 1) (acc.set k x) ⟨u, h, hun⟩

/-- An `int` product below `2^31` is the exact product. -/
theorem wrap_int_mul_of_lt (n : Nat) (h : n * n < 2 ^ 31) :
    wrap_int ((n : Int) * (n : Int)) = ((n * n : Nat) : Int) := by
  rw [← Nat.cast_mul]
  unfold wrap_int
  omega

/-- What `get_compensation` returns for a value made of a positive count `n`
whose square fits an `int`, `n` marker names and `m ≤ n * n` numbers: the
markers, and a matrix of length `n * n` that starts with the `m` numbers and is
0 from there on. -/
theorem get_compensation_of_tokens (to_int : String → Option Int)
    (to_double : String → Option Rat) (f : CytoFrame) (key val : String) (n m : Nat)
    (hkey : f.keys_.find key = some val)
    (hn : to_int ((split val).getD 0 "") = some (n : Int)) (hpos : 0 < n)
    (hfit : n * n < 2 ^ 31)
    (hlen : (split val).length = 1 + n + m) (hm : m ≤ n * n)
    (hnum : ∀ i, i < m → ∃ x, to_double ((split val).getD (n + 1 + i) "") = some x) :
    ∃ comp, get_compensation to_int to_double f key = .ok comp ∧
      comp.marker.length = n ∧
      (∀ i, i < n → comp.marker[i]? = (split val)[i + 1]?) ∧
      comp.spillOver.length = n * n ∧
      (∀ i, i < m → comp.spillOver[i]? = to_double ((split val).getD (n + 1 + i) "")) ∧
      (∀ j, m ≤ j → j < n * n → comp.spillOver[j]? = some 0) ∧
      comp.cid = "" ∧ comp.prefix_ = "" ∧ comp.suffix = "" ∧ comp.name = "" ∧
      comp.comment = "" := by
  have hdrop : ((split val).drop (n + 1)).length = m := by
    rw [List.length_drop, hlen]; omega
  have hall : ∀ t ∈ (split val).drop (n + 1), ∃ x, to_double t = some x := by
    intro t ht
    obtain ⟨i, hi, hit⟩ := List.getElem_of_mem ht
    have hi2 : i < m := by rw [hdrop] at hi; exact hi
    obtain ⟨x, hx⟩ := hnum i hi2
    refine ⟨x, ?_⟩
    rw [← hit, List.getElem_drop]
    rw [List.getD_eq_getElem _ _ (by rw [hlen]; omega)] at hx
    exact hx
  obtain ⟨sp, hsp, hsplen, -, hafter, hat⟩ :=
    spill_loop_ok to_double ((split val).drop (n + 1)) 0 (List.replicate (n * n) 0) hall
  have hposInt : (n : Int) > 0 := by exact_mod_cast hpos
  have hsize : ¬ ((n * n : Nat) : Int) < 0 := by omega
  refine ⟨{ (default : compensation) with
      marker := (List.range n).map (fun i => (split val).getD (i + 1) "")
      spillOver := sp }, ?_, ?_, ?_, ?_, ?_, ?_, rfl, rfl, rfl, rfl, rfl⟩
  · simp only [get_compensation, hkey, hn, hposInt, if_true, wrap_int_mul_of_lt n hfit, hsize,
      if_false, Int.toNat_ofNat, hsp]
  · simp
  · intro i hi
    have h1 : i + 1 < (split val).length := by rw [hlen]; omega
    simp [List.getElem?_map, List.getElem?_range hi, List.getD_eq_getElem _ _ h1,
      List.getElem?_eq_getElem h1]
  · simpa using hsplen
  · intro i hi
    have h1 : i < ((split val).drop (n + 1)).length := by rw [hdrop]; exact hi
    have h2 := hat i h1 (by simp only [List.length_replicate]; omega)
    simp only [Nat.zero_add] at h2
    show sp[i]? = _
    rw [h2, List.getElem_drop, List.getD_eq_getElem _ _ (by rw [hlen]; omega)]
  · intro j hj hjn
    have h2 := hafter j (by rw [hdrop]; omega)
    show sp[j]? = _
    rw [h2]
    simp [List.getElem?_replicate, hjn]

/-- The function `split_commas` always gives at least one token. -/
theorem split_commas_ne_nil (cs : List Char) : split_commas cs ≠ [] := by
  cases cs with
  | nil => simp [split_commas]
  | cons c cs =>
    unfold split_commas
    split
    · simp
    · split <;> simp

/-- A text without a comma in front of another text joins the first token of
that text. -/
theorem split_commas_append (t0 rest h : List Char) (tl : List (List Char))
    (h0 : ',' ∉ t0) (hr : split_commas rest = h :: tl) :
    split_commas (t0 ++ rest) = (t0 ++ h) :: tl := by
  induction t0 with
  | nil => simpa using hr
  | cons c cs ih =>
    have hc : c ≠ ',' := fun e => h0 (e ▸ List.mem_cons_self _ _)
    have hcs : ',' ∉ cs := fun e => h0 (List.mem_cons_of_mem _ e)
    have := ih hcs
    simp only [List.cons_append, split_commas, hc, if_false, List.append_eq, this]

/-- Splitting a text made of tokens without commas, each after the first
preceded by a comma, gives back the tokens. -/
theorem split_commas_joined (t0 : List Char) (ts : List (List Char)) (h0 : ',' ∉ t0)
    (hts : ∀ t ∈ ts, ',' ∉ t) :
    split_commas (t0 ++ (ts.map (fun t => ',' :: t)).flatten) = t0 :: ts := by
  induction ts generalizing t0 with
  | nil => simpa using split_commas_append t0 [] [] [] h0 rfl
  | cons t ts ih =>
    have h1 := ih t (hts t (List.mem_cons_self _ _))
      (fun u hu => hts u (List.mem_cons_of_mem _ hu))
    have h2 : split_commas ((List.map (fun t => ',' :: t) (t :: ts)).flatten)
        = [] :: t :: ts := by
      simp only [List.map_cons, List.flatten_cons, List.cons_append, split_commas, if_true,
        List.append_eq, h1]
    simpa using split_commas_append t0 _ [] (t :: ts) h0 h2

/-- The tokens of `spill_value count n m`. -/
theorem split_spill_value (count : String) (n m : Nat) (hc : ',' ∉ count.data) :
    split (spill_value count n m)
      = count :: (List.replicate n "a" ++ List.replicate m "1") := by
  have hts : ∀ t ∈ List.replicate n "a".data ++ List.replicate m "1".data, ',' ∉ t := by
    intro t ht
    rcases List.mem_append.1 ht with h | h
    · rw [(List.mem_replicate.1 h).2]; decide
    · rw [(List.mem_replicate.1 h).2]; decide
  unfold split spill_value
  rw [split_commas_joined count.data _ hc hts]
  simp only [List.map_cons, List.map_append, List.map_replicate]

/-- The token of `spill_value count n m` at position `n + 1 + k` is the number
"1" when `k < m`. -/
theorem getD_spill_value (count : String) (n m k : Nat) (hc : ',' ∉ count.data)
    (hk : k < m) : (split (spill_value count n m)).getD (n + 1 + k) "" = "1" := by
  rw [split_spill_value count n m hc]
  have h1 : n + 1 + k = (n + k) + 1 := by omega
  rw [h1, List.getD_cons_succ, List.getD_eq_getElem _ _ (by simp; omega),
    List.getElem_append_right (by simp), List.getElem_replicate]

/-- A positive count whose `int` square is negative makes `get_compensation`
throw `length_error`, whatever the other tokens are. -/
theorem get_compensation_length_error (to_int : String → Option Int)
    (to_double : String → Option Rat) (f : CytoFrame) (key val : String) (n : Int)
    (hkey : f.keys_.find key = some val)
    (hn : to_int ((split val).getD 0 "") = some n) (hpos : n > 0)
    (hneg : wrap_int (n * n) < 0) :
    get_compensation to_int to_double f key = .error .length_error := by
  simp only [get_compensation, hkey, hn, hpos, if_true, hneg]

/-- C11 fails as stated: the value `spill_value "46341" 46341 (46341 * 46341)`
has the count 46341 followed by exactly `46341 + 46341 * 46341` tokens, the last
`46341 * 46341` of them the number "1", and `get_compensation` does not return
a compensation for it: `46341 * 46341` does not fit an `int`, the size passed
to `resize` is negative and the call throws `length_error`. -/
theorem get_compensation_square_overflows :
    (split (spill_value "46341" 46341 (46341 * 46341))).getD 0 "" = "46341" ∧
    to_int_large_sample "46341" = some 46341 ∧
    (split (spill_value "46341" 46341 (46341 * 46341))).length
      = 1 + 46341 + 46341 * 46341 ∧
    (∀ k, k < 46341 * 46341 →
      to_double_sample
        ((split (spill_value "46341" 46341 (46341 * 46341))).getD (46341 + 1 + k) "")
        = some 1) ∧
    get_compensation to_int_large_sample to_double_sample
        { CytoFrame.empty with
          keys_ := unordered_map.clear.assign "SPILL"
            (spill_value "46341" 46341 (46341 * 46341)) } "SPILL"
      = .error .length_error := by
  have hc : ',' ∉ "46341".data := by decide
  have h0 : (split (spill_value "46341" 46341 (46341 * 46341))).getD 0 "" = "46341" := by
    rw [split_spill_value _ _ _ hc]
    exact List.getD_cons_zero
  refine ⟨h0, by decide, ?_, ?_, ?_⟩
  · rw [split_spill_value _ _ _ hc, List.length_cons, List.length_append,
      List.length_replicate, List.length_replicate]
  · intro k hk
    rw [getD_spill_value _ _ _ k hc hk]
    rfl
  · refine get_compensation_length_error to_int_large_sample to_double_sample _ "SPILL"
      (spill_value "46341" 46341 (46341 * 46341)) 46341
      (unordered_map.find_assign_self _ _ _) ?_ (by decide) (by decide)
    rw [h0]
    decide

/-- C11, amended: `get_compensation(key)` splits the keyword value at commas.
When the first token is an integer `n > 0` whose square fits an `int`
(`n * n < 2^31`), followed by exactly `n + n * n` tokens, the last `n * n` of
them numbers, the result has the markers `marker[i] = token i + 1` and a matrix
of length `n * n` with `spillOver[k]` the number in token `n + 1 + k`. When the
first token is an integer `n ≤ 0`, or the key is absent, the result has no
markers and an empty matrix. -/
theorem get_compensation_parses (to_int : String → Option Int)
    (to_double : String → Option Rat) (f : CytoFrame) (key : String) :
    (∀ (val : String) (n : Nat), f.keys_.find key = some val →
      to_int ((split val).getD 0 "") = some (n : Int) → 0 < n → n * n < 2 ^ 31 →
      (split val).length = 1 + n + n * n →
      (∀ k, k < n * n → ∃ x, to_double ((split val).getD (n + 1 + k) "") = some x) →
      ∃ comp, get_compensation to_int to_double f key = .ok comp ∧
        comp.marker.length = n ∧
        (∀ i, i < n → comp.marker[i]? = (split val)[i + 1]?) ∧
        comp.spillOver.length = n * n ∧
        (∀ k, k < n * n →
          comp.spillOver[k]? = to_double ((split val).getD (n + 1 + k) ""))) ∧
    (∀ (val : String) (n : Int), f.keys_.find key = some val →
      to_int ((split val).getD 0 "") = some n → n ≤ 0 →
      ∃ comp, get_compensation to_int to_double f key = .ok comp ∧
        comp.marker = [] ∧ comp.spillOver = []) ∧
    (f.keys_.find key = none →
      ∃ comp, get_compensation to_int to_double f key = .ok comp ∧
        comp.marker = [] ∧ comp.spillOver = []) := by
  refine ⟨?_, ?_, ?_⟩
  · intro val n hkey hn hpos hfit hlen hnum
    obtain ⟨comp, h1, h2, h3, h4, h5, -⟩ :=
      get_compensation_of_tokens to_int to_double f key val n (n * n) hkey hn hpos hfit hlen
        (Nat.le_refl _) hnum
    exact ⟨comp, h1, h2, h3, h4, h5⟩
  · intro val n hkey hn hle
    have hnot : ¬ n > 0 := by omega
    refine ⟨default, ?_, rfl, rfl⟩
    unfold get_compensation
    simp only [hkey, hn]
    rw [if_neg hnot]
  · intro hkey
    exact ⟨default, by simp [get_compensation, hkey], rfl, rfl⟩

/-- C11 amended, at the keyword SPILL = "2,FITC,PE,1,0.1,0.2,1": the markers
are FITC and PE and the matrix is 1, 0.1, 0.2, 1. -/
theorem get_compensation_parses_witness :
    get_compensation to_int_sample to_double_sample
        { CytoFrame.empty with
          keys_ := unordered_map.clear.assign "SPILL" "2,FITC,PE,1,0.1,0.2,1" } "SPILL"
      = .ok { (default : compensation) with
          marker := ["FITC", "PE"], spillOver := [1, 1 / 10, 1 / 5, 1] } ∧
    ∃ comp, get_compensation to_int_sample to_double_sample
        { CytoFrame.empty with
          keys_ := unordered_map.clear.assign "SPILL" "2,FITC,PE,1,0.1,0.2,1" } "SPILL"
        = .ok comp ∧
      comp.marker.length = 2 ∧
      (∀ i, i < 2 → comp.marker[i]? = (split "2,FITC,PE,1,0.1,0.2,1")[i + 1]?) ∧
      comp.spillOver.length = 2 * 2 ∧
      (∀ k, k < 2 * 2 → comp.spillOver[k]?
        = to_double_sample ((split "2,FITC,PE,1,0.1,0.2,1").getD (2 + 1 + k) "")) :=
  ⟨rfl,
    (get_compensation_parses to_int_sample to_double_sample
      { CytoFrame.empty with
        keys_ := unordered_map.clear.assign "SPILL" "2,FITC,PE,1,0.1,0.2,1" } "SPILL").1
      "2,FITC,PE,1,0.1,0.2,1" 2 (by decide) (by decide) (by decide) (by decide) (by decide)
      (fun k hk => by
        have hk4 : k < 4 := hk
        interval_cases k <;> exact ⟨_, rfl⟩)⟩

/-- C12 fails as stated: the value "2,FITC,PE,1,0.1" has the count 2 followed
by four tokens, not by 2 + 2 * 2 = 6, and `get_compensation` returns a
compensation for it, its matrix filled up with zeros. -/
theorem get_compensation_accepts_short_matrix :
    to_int_sample ((split "2,FITC,PE,1,0.1").getD 0 "") = some 2 ∧
    (split "2,FITC,PE,1,0.1").length = 1 + 4 ∧ 4 ≠ 2 + 2 * 2 ∧
    get_compensation to_int_sample to_double_sample
        { CytoFrame.empty with
          keys_ := unordered_map.clear.assign "SPILL" "2,FITC,PE,1,0.1" } "SPILL"
      = .ok { (default : compensation) with
          marker := ["FITC", "PE"], spillOver := [1, 1 / 10, 0, 0] } :=
  ⟨by decide, by decide, by decide, rfl⟩

/-- C12, amended: `get_compensation` does not check the number of tokens. For
a value whose first token is an integer `n > 0` whose square fits an `int`
(`n * n < 2^31`), followed by `n` marker names and by `m ≤ n * n` further
tokens, it returns, when these `m` tokens are numbers, the compensation with
the `n` markers and a matrix of length `n * n` that holds the `m` numbers and
then zeros; it throws `bad_lexical_cast` when one of the `m` tokens is not a
number. -/
theorem get_compensation_pads_matrix (to_int : String → Option Int)
    (to_double : String → Option Rat) (f : CytoFrame) (key val : String) (n m : Nat)
    (hkey : f.keys_.find key = some val)
    (hn : to_int ((split val).getD 0 "") = some (n : Int)) (hpos : 0 < n)
    (hfit : n * n < 2 ^ 31)
    (hlen : (split val).length = 1 + n + m) (hm : m ≤ n * n) :
    ((∀ i, i < m → ∃ x, to_double ((split val).getD (n + 1 + i) "") = some x) →
      ∃ comp, get_compensation to_int to_double f key = .ok comp ∧
        comp.marker.length = n ∧
        (∀ i, i < n → comp.marker[i]? = (split val)[i + 1]?) ∧
        comp.spillOver.length = n * n ∧
        (∀ i, i < m → comp.spillOver[i]? = to_double ((split val).getD (n + 1 + i) "")) ∧
        (∀ j, m ≤ j → j < n * n → comp.spillOver[j]? = some 0)) ∧
    ((∃ i, i < m ∧ to_double ((split val).getD (n + 1 + i) "") = none) →
      get_compensation to_int to_double f key = .error .bad_lexical_cast) := by
  constructor
  · intro hnum
    obtain ⟨comp, h1, h2, h3, h4, h5, h6, -⟩ :=
      get_compensation_of_tokens to_int to_double f key val n m hkey hn hpos hfit hlen hm hnum
    exact ⟨comp, h1, h2, h3, h4, h5, h6⟩
  · rintro ⟨i, hi, hbad⟩
    have hposInt : (n : Int) > 0 := by exact_mod_cast hpos
    have hsize : ¬ ((n * n : Nat) : Int) < 0 := by omega
    have hi2 : n + 1 + i < (split val).length := by rw [hlen]; omega
    have hmem : ∃ t ∈ (split val).drop (n + 1), to_double t = none := by
      have hi3 : i < ((split val).drop (n + 1)).length := by
        rw [List.length_drop, hlen]; omega
      refine ⟨((split val).drop (n + 1))[i], List.getElem_mem hi3, ?_⟩
      rw [List.getD_eq_getElem _ _ hi2] at hbad
      rw [List.getElem_drop]
      exact hbad
    simp only [get_compensation, hkey, hn, hposInt, if_true, wrap_int_mul_of_lt n hfit, hsize,
      if_false, Int.toNat_ofNat, spill_loop_error to_double _ 0 _ hmem]

/-- C12 amended, at the keyword SPILL = "2,FITC,PE,1,0.1": two markers, two
numbers, and the matrix of length 4 ends in zeros. -/
theorem get_compensation_pads_matrix_witness :
    ∃ comp, get_compensation to_int_sample to_double_sample
        { CytoFrame.empty with
          keys_ := unordered_map.clear.assign "SPILL" "2,FITC,PE,1,0.1" } "SPILL" = .ok comp ∧
      comp.marker.length = 2 ∧
      (∀ i, i < 2 → comp.marker[i]? = (split "2,FITC,PE,1,0.1")[i + 1]?) ∧
      comp.spillOver.length = 2 * 2 ∧
      (∀ i, i < 2 → comp.spillOver[i]?
        = to_double_sample ((split "2,FITC,PE,1,0.1").getD (2 + 1 + i) "")) ∧
      (∀ j, 2 ≤ j → j < 2 * 2 → comp.spillOver[j]? = some 0) :=
  (get_compensation_pads_matrix to_int_sample to_double_sample
    { CytoFrame.empty with
      keys_ := unordered_map.clear.assign "SPILL" "2,FITC,PE,1,0.1" } "SPILL"
    "2,FITC,PE,1,0.1" 2 2 (by decide) (by decide) (by decide) (by decide) (by decide)
    (by decide)).1
    (fun i hi => by interval_cases i <;> exact ⟨_, rfl⟩)

/-! ## The first name that does not resolve -/

/-- On a frame with a built index a channel or marker lookup returns normally. -/
theorem get_col_idx_ok_of_hashed (f : CytoFrame) (name : String) (type : ColType)
    (hh : is_hashed f = true) (ht : type = .channel ∨ type = .marker) :
    ∃ v, get_col_idx f name type = .ok v := by
  rcases ht with ht | ht
  · subst ht
    cases hf : f.channel_vs_idx.find name with
    | none => exact ⟨-1, by simp [get_col_idx, hh, hf]⟩
    | some v => exact ⟨v, by simp [get_col_idx, hh, hf]⟩
  · subst ht
    cases hf : f.marker_vs_idx.find name with
    | none => exact ⟨-1, by simp [get_col_idx, hh, hf]⟩
    | some v => exact ⟨v, by simp [get_col_idx, hh, hf]⟩

/-- On a frame with a built index, a list of names that do not all resolve has
a first name that does not: the lookups before it give positions, its own
lookup says not found. -/
theorem exists_first_unresolved (f : CytoFrame) (names : List String) (type : ColType)
    (hh : is_hashed f = true) (ht : type = .channel ∨ type = .marker)
    (hnot : ¬ ∀ n ∈ names, ∃ i : Int, 0 ≤ i ∧ get_col_idx f n type = .ok i) :
    ∃ (k : Nat) (hk : k < names.length),
      (∀ (j : Nat) (hj : j < k),
        ∃ i : Int, 0 ≤ i ∧ get_col_idx f (names[j]) type = .ok i) ∧
      (∃ i : Int, i < 0 ∧ get_col_idx f names[k] type = .ok i) := by
  induction names with
  | nil => exact absurd (fun n hn => absurd hn (by simp)) hnot
  | cons a rest ih =>
    obtain ⟨v, hv⟩ := get_col_idx_ok_of_hashed f a type hh ht
    by_cases hneg : v < 0
    · exact ⟨0, by simp, fun j hj => absurd hj (by omega), ⟨v, hneg, by simpa using hv⟩⟩
    · have hrest : ¬ ∀ n ∈ rest, ∃ i : Int, 0 ≤ i ∧ get_col_idx f n type = .ok i := by
        intro hall
        apply hnot
        intro n hn
        rcases List.mem_cons.1 hn with h | h
        · exact ⟨v, by omega, h ▸ hv⟩
        · exact hall n h
      obtain ⟨k, hk, hbefore, hat⟩ := ih hrest
      refine ⟨k + 1, by simpa using hk, ?_, by simpa using hat⟩
      intro j hj
      cases j with
      | zero => exact ⟨v, by omega, by simpa using hv⟩
      | succ j =>
        have := hbefore j (by omega)
        simpa using this

/-! ## Facts about `compensate` -/

/-- Resolving the marker names throws the "compensation parameter not found"
error for a name whose lookup says not found when all names before it
resolve. -/
theorem compensate_indices_first_unresolved (f : CytoFrame) (ms : List String) (k : Nat)
    (hk : k < ms.length)
    (hbefore : ∀ (j : Nat) (hj : j < k),
      ∃ i : Int, 0 ≤ i ∧ get_col_idx f (ms[j]) .channel = .ok i)
    (hat : ∃ i : Int, i < 0 ∧ get_col_idx f ms[k] .channel = .ok i) :
    compensate_indices f ms
      = .error ⟨"compensation parameter '" ++ ms[k] ++ " not found in cytoframe parameters!"⟩ := by
  induction ms generalizing k with
  | nil => simp at hk
  | cons a rest ih =>
    cases k with
    | zero =>
      obtain ⟨i, hi, hg⟩ := hat
      simp only [List.getElem_cons_zero] at hg ⊢
      simp [compensate_indices, hg, hi]
    | succ k =>
      obtain ⟨i, hi, hg⟩ := hbefore 0 (by omega)
      simp only [List.getElem_cons_zero] at hg
      have h3 : ¬ i < 0 := by omega
      have hk2 : k < rest.length := by simpa using hk
      have := ih k hk2 (fun j hj => by
        have := hbefore (j + 1) (by omega)
        simpa using this) (by simpa using hat)
      simp only [List.getElem_cons_succ]
      simp [compensate_indices, hg, h3, this]

/-- On a frame whose index is not built, resolving a non-empty list of marker
names throws the index-not-built error at the first name. -/
theorem compensate_indices_not_hashed (f : CytoFrame) (ms : List String)
    (hh : is_hashed f = false) (hne : ms ≠ []) :
    compensate_indices f ms = .error not_hashed_error := by
  cases ms with
  | nil => exact absurd rfl hne
  | cons a rest => simp [compensate_indices, get_col_idx, hh]

/-- C13 fails as stated: on the frame made from two descriptors that share the
channel "A" (its index does not count as built), a compensation with the
single marker "X" makes `compensate` throw the index-not-built error; and on
the frame with the single channel "A", a compensation with the marker "X"
whose matrix (0) has no inverse makes it throw the error of the inversion.
Neither is the "compensation parameter not found" error. -/
theorem compensate_other_failures :
    (CytoFrame.of_params [cytoParam.named "A" "", cytoParam.named "A" ""]).channel_vs_idx.find
      "X" = none ∧
    (compensate compensation.spillOver inv_sample (fun dat _ _ => some dat)
      (CytoFrame.of_params [cytoParam.named "A" "", cytoParam.named "A" ""]) [[1], [2]]
      { (default : compensation) with marker := ["X"], spillOver := [1] }).thrown
      = some (.domain not_hashed_error) ∧
    (CytoFrame.of_params [cytoParam.named "A" ""]).channel_vs_idx.find "X" = none ∧
    (compensate compensation.spillOver inv_sample (fun dat _ _ => some dat)
      (CytoFrame.of_params [cytoParam.named "A" ""]) [[1]]
      { (default : compensation) with marker := ["X"], spillOver := [0] }).thrown
      = some .runtime_error :=
  ⟨by decide, rfl, by decide, rfl⟩

/-- C13, amended: for every frame and every compensation that has a marker
name which is not in the channel map of the frame, `compensate` throws and the
event matrix and the frame (descriptors, keywords and all) are as before. What
it throws is the error of the inversion when the library cannot invert the
matrix of the compensation; otherwise the index-not-built error when the index
of the frame is not built; otherwise the "compensation parameter not found"
error for the first marker of the compensation whose lookup says not found. -/
theorem compensate_missing_marker {M : Type} (get_spillover_mat : compensation → M)
    (inv : M → Option M) (mul_cols : EVENT_DATA_VEC → List Int → M → Option EVENT_DATA_VEC)
    (f : CytoFrame) (dat : EVENT_DATA_VEC) (comp : compensation)
    (hmiss : ∃ m ∈ comp.marker, f.channel_vs_idx.find m = none) :
    (compensate get_spillover_mat inv mul_cols f dat comp).thrown ≠ none ∧
    (compensate get_spillover_mat inv mul_cols f dat comp).data = dat ∧
    (compensate get_spillover_mat inv mul_cols f dat comp).frame = f ∧
    (inv (get_spillover_mat comp) = none →
      (compensate get_spillover_mat inv mul_cols f dat comp).thrown = some .runtime_error) ∧
    ((∃ B, inv (get_spillover_mat comp) = some B) → is_hashed f = false →
      (compensate get_spillover_mat inv mul_cols f dat comp).thrown
        = some (.domain not_hashed_error)) ∧
    ((∃ B, inv (get_spillover_mat comp) = some B) → is_hashed f = true →
      ∃ (k : Nat) (hk : k < comp.marker.length),
        (∀ (j : Nat) (hj : j < k),
          ∃ i : Int, 0 ≤ i ∧ get_col_idx f (comp.marker[j]) .channel = .ok i) ∧
        (∃ i : Int, i < 0 ∧ get_col_idx f comp.marker[k] .channel = .ok i) ∧
        (compensate get_spillover_mat inv mul_cols f dat comp).thrown
          = some (.domain ⟨"compensation parameter '" ++ comp.marker[k]
              ++ " not found in cytoframe parameters!"⟩)) := by
  obtain ⟨m, hm, hmn⟩ := hmiss
  have hne : comp.marker ≠ [] := List.ne_nil_of_mem hm
  have hfirst : is_hashed f = true →
      ∃ (k : Nat) (hk : k < comp.marker.length),
        (∀ (j : Nat) (hj : j < k),
          ∃ i : Int, 0 ≤ i ∧ get_col_idx f (comp.marker[j]) .channel = .ok i) ∧
        (∃ i : Int, i < 0 ∧ get_col_idx f comp.marker[k] .channel = .ok i) ∧
        compensate_indices f comp.marker
          = .error ⟨"compensation parameter '" ++ comp.marker[k]
              ++ " not found in cytoframe parameters!"⟩ := by
    intro hh
    have hnot : ¬ ∀ n ∈ comp.marker,
        ∃ i : Int, 0 ≤ i ∧ get_col_idx f n .channel = .ok i := by
      intro hall
      obtain ⟨i, hi, hg⟩ := hall m hm
      rw [get_col_idx_channel_of_none f m hh hmn] at hg
      injection hg with hg
      omega
    obtain ⟨k, hk, hbefore, hat⟩ :=
      exists_first_unresolved f comp.marker .channel hh (Or.inl rfl) hnot
    exact ⟨k, hk, hbefore, hat,
      compensate_indices_first_unresolved f comp.marker k hk hbefore hat⟩
  have herr : ∃ e, compensate_indices f comp.marker = .error e := by
    cases hh : is_hashed f with
    | false => exact ⟨_, compensate_indices_not_hashed f comp.marker hh hne⟩
    | true =>
      obtain ⟨k, hk, -, -, he⟩ := hfirst hh
      exact ⟨_, he⟩
  obtain ⟨e, he⟩ := herr
  refine ⟨?_, ?_, ?_, ?_, ?_, ?_⟩
  · cases hB : inv (get_spillover_mat comp) with
    | none => simp [compensate, hB]
    | some B => simp [compensate, hB, he]
  · cases hB : inv (get_spillover_mat comp) with
    | none => simp [compensate, hB]
    | some B => simp [compensate, hB, he]
  · cases hB : inv (get_spillover_mat comp) with
    | none => simp [compensate, hB]
    | some B => simp [compensate, hB, he]
  · intro hB
    simp [compensate, hB]
  · rintro ⟨B, hB⟩ hh
    simp [compensate, hB, compensate_indices_not_hashed f comp.marker hh hne]
  · rintro ⟨B, hB⟩ hh
    obtain ⟨k, hk, hbefore, hat, he2⟩ := hfirst hh
    exact ⟨k, hk, hbefore, hat, by simp [compensate, hB, he2]⟩

/-- C13 amended, at the frame with the single channel "A", the event matrix
with the one value 1 and the compensation with markers "A", "X" and matrix
(1): `compensate` throws the error that names "X", the first marker that does
not resolve, and the event matrix and the frame are as before. -/
theorem compensate_missing_marker_witness :
    (compensate compensation.spillOver inv_sample (fun dat _ _ => some dat)
      (CytoFrame.of_params [cytoParam.named "A" ""]) [[1]]
      { (default : compensation) with marker := ["A", "X"], spillOver := [1] }).thrown
      = some (.domain ⟨"compensation parameter 'X not found in cytoframe parameters!"⟩) ∧
    (compensate compensation.spillOver inv_sample (fun dat _ _ => some dat)
      (CytoFrame.of_params [cytoParam.named "A" ""]) [[1]]
      { (default : compensation) with marker := ["A", "X"], spillOver := [1] }).thrown
      ≠ none ∧
    (compensate compensation.spillOver inv_sample (fun dat _ _ => some dat)
      (CytoFrame.of_params [cytoParam.named "A" ""]) [[1]]
      { (default : compensation) with marker := ["A", "X"], spillOver := [1] }).data
      = [[1]] ∧
    (compensate compensation.spillOver inv_sample (fun dat _ _ => some dat)
      (CytoFrame.of_params [cytoParam.named "A" ""]) [[1]]
      { (default : compensation) with marker := ["A", "X"], spillOver := [1] }).frame
      = CytoFrame.of_params [cytoParam.named "A" ""] :=
  ⟨rfl,
    (compensate_missing_marker compensation.spillOver inv_sample (fun dat _ _ => some dat)
      (CytoFrame.of_params [cytoParam.named "A" ""]) [[1]]
      { (default : compensation) with marker := ["A", "X"], spillOver := [1] }
      ⟨"X", by decide, by decide⟩).1,
    (compensate_missing_marker compensation.spillOver inv_sample (fun dat _ _ => some dat)
      (CytoFrame.of_params [cytoParam.named "A" ""]) [[1]]
      { (default : compensation) with marker := ["A", "X"], spillOver := [1] }
      ⟨"X", by decide, by decide⟩).2.1,
    (compensate_missing_marker compensation.spillOver inv_sample (fun dat _ _ => some dat)
      (CytoFrame.of_params [cytoParam.named "A" ""]) [[1]]
      { (default : compensation) with marker := ["A", "X"], spillOver := [1] }
      ⟨"X", by decide, by decide⟩).2.2.1⟩

/-! ## Facts about `get_time_step` -/

/-- Without a `$TIMESTEP` keyword and with both `$BTIM` and `$ETIM`, the whole
seconds never enter the time step: it is the difference of the two fractions,
each divided by 100, over the data range of the time channel. -/
theorem get_time_step_of_btim_etim {TM : Type} (to_double : String → Option EVENT_DATA_TYPE)
    (parse : String → TM_ext TM) (mktime : TM → Int) (dat : EVENT_DATA_VEC) (f : CytoFrame)
    (time_channel b e : String) (r : EVENT_DATA_TYPE × EVENT_DATA_TYPE)
    (hts : f.keys_.find "$TIMESTEP" = none) (hb : f.keys_.find "$BTIM" = some b)
    (he : f.keys_.find "$ETIM" = some e)
    (hr : get_range dat f time_channel .channel .data = .ok r) :
    get_time_step to_double parse mktime dat f time_channel
      = .ok (((parse e).fractional_secs / 100 - (parse b).fractional_secs / 100)
          / (r.2 - r.1)) := by
  simp [get_time_step, hts, hb, he, hr, difftime]

/-- C14, the code at the failing input: with `$BTIM` = "10:00:00.00", `$ETIM` =
"10:00:01.50", no `$TIMESTEP` and the time channel "Time" holding the values 0
and 1500, the data range is (0, 1500) and `get_time_step` returns
0.5 / 1500 = 1/3000, not 1.5 / 1500 = 1/1000: the whole second between begin
and end is lost. -/
theorem get_time_step_drops_whole_seconds :
    get_range [[0, 1500]]
        { CytoFrame.of_params [cytoParam.named "Time" ""] with
          keys_ := (unordered_map.clear.assign "$BTIM" "10:00:00.00").assign
            "$ETIM" "10:00:01.50" }
        "Time" .channel .data = .ok (0, 1500) ∧
    get_time_step to_double_sample parse_time_sample mktime_sample [[0, 1500]]
        { CytoFrame.of_params [cytoParam.named "Time" ""] with
          keys_ := (unordered_map.clear.assign "$BTIM" "10:00:00.00").assign
            "$ETIM" "10:00:01.50" }
        "Time" = .ok (1 / 3000) ∧
    ((1 : Rat) / 3000 ≠ 1 / 1000) := by
  have hr : get_range [[0, 1500]]
        { CytoFrame.of_params [cytoParam.named "Time" ""] with
          keys_ := (unordered_map.clear.assign "$BTIM" "10:00:00.00").assign
            "$ETIM" "10:00:01.50" }
        "Time" .channel .data = .ok (0, 1500) := by
    have hidx : get_col_idx_vec
        { CytoFrame.of_params [cytoParam.named "Time" ""] with
          keys_ := (unordered_map.clear.assign "$BTIM" "10:00:00.00").assign
            "$ETIM" "10:00:01.50" }
        ["Time"] .channel = .ok [0] := by decide
    simp [get_range, hidx, get_data_cols, vec_min, vec_max]
  refine ⟨hr, ?_, by norm_num⟩
  rw [get_time_step_of_btim_etim to_double_sample parse_time_sample mktime_sample _ _ "Time"
    "10:00:00.00" "10:00:01.50" (0, 1500) (by decide) (by decide) (by decide) hr]
  simp [parse_time_sample]
  norm_num

/-- C15: whenever `$TIMESTEP` is present, `get_time_step` is the conversion of
its value to a number, whatever `$BTIM`, `$ETIM`, the event matrix and the
time channel are (it throws when the value is not a number); when `$TIMESTEP`
is absent and `$BTIM` or `$ETIM` is absent, the result is 1. -/
theorem get_time_step_prefers_timestep {TM : Type}
    (to_double : String → Option EVENT_DATA_TYPE) (parse : String → TM_ext TM)
    (mktime : TM → Int) (dat : EVENT_DATA_VEC) (f : CytoFrame) (time_channel : String) :
    (∀ v ts, f.keys_.find "$TIMESTEP" = some v → to_double v = some ts →
      get_time_step to_double parse mktime dat f time_channel = .ok ts) ∧
    (∀ v, f.keys_.find "$TIMESTEP" = some v → to_double v = none →
      get_time_step to_double parse mktime dat f time_channel = .error .bad_lexical_cast) ∧
    (f.keys_.find "$TIMESTEP" = none →
      f.keys_.find "$BTIM" = none ∨ f.keys_.find "$ETIM" = none →
      get_time_step to_double parse mktime dat f time_channel = .ok 1) := by
  refine ⟨?_, ?_, ?_⟩
  · intro v ts hv hts
    simp [get_time_step, hv, hts]
  · intro v hv hts
    simp [get_time_step, hv, hts]
  · intro hts hbe
    unfold get_time_step
    simp only [hts]
    rcases hbe with h | h
    · rw [h]
    · rw [h]
      cases f.keys_.find "$BTIM" <;> rfl

/-- C15 at a frame without columns whose keywords are `$TIMESTEP` = "0.5",
`$BTIM` = "10:00:00.00" and `$ETIM` = "10:00:01.50": the result is 1/2 even
though the time channel "Time" does not exist. -/
theorem get_time_step_prefers_timestep_witness :
    get_time_step to_double_sample parse_time_sample mktime_sample []
        { CytoFrame.empty with
          keys_ := ((unordered_map.clear.assign "$TIMESTEP" "0.5").assign
            "$BTIM" "10:00:00.00").assign "$ETIM" "10:00:01.50" }
        "Time" = .ok (1 / 2) :=
  (get_time_step_prefers_timestep to_double_sample parse_time_sample mktime_sample []
    { CytoFrame.empty with
      keys_ := ((unordered_map.clear.assign "$TIMESTEP" "0.5").assign
        "$BTIM" "10:00:00.00").assign "$ETIM" "10:00:01.50" }
    "Time").1 "0.5" (1 / 2) (by decide) rfl

/-! ## Facts about `set_range` and `get_range` -/

theorem toString_succ_cast (idx : Nat) : toString ((idx : Int) + 1) = toString (idx + 1) := by
  have h : ((idx : Int) + 1) = ((idx + 1 : Nat) : Int) := by push_cast; rfl
  rw [h]
  rfl

theorem rmin_key_ne_rmax_key (pid : String) :
    "flowCore_$P" ++ pid ++ "Rmin" ≠ "flowCore_$P" ++ pid ++ "Rmax" := by
  intro h
  have h2 := congrArg String.data h
  simp only [String.data_append, List.append_cancel_left_eq] at h2
  exact absurd h2 (by decide)

/-- The frame `set_range` leaves when the name resolves to column `idx`. -/
theorem set_range_eq_of_resolved (lexical_cast : EVENT_DATA_TYPE → String) (f : CytoFrame)
    (colname : String) (ctype : ColType) (lo hi : EVENT_DATA_TYPE) (b : Bool) (idx : Nat)
    (hw : f.readonly_ = false) (hres : get_col_idx f colname ctype = .ok (idx : Int)) :
    set_range lexical_cast f colname ctype (lo, hi) b = ⟨none,
      { f with
        params := (f.params.modify (fun p => { p with min := lo }) idx).modify
          (fun p => { p with max := hi }) idx
        keys_ := if b then
            (f.keys_.assign ("flowCore_$P" ++ toString (idx + 1) ++ "Rmin")
              (lexical_cast lo)).assign
              ("flowCore_$P" ++ toString (idx + 1) ++ "Rmax") (lexical_cast hi)
          else f.keys_ }⟩ := by
  have h3 : ¬ ((idx : Int) < 0) := by omega
  cases b <;>
    simp [set_range, check_write_permission, hw, hres, h3, set_keyword, toString_succ_cast]

/-- C16: on a writable frame, when `(colname, ctype)` resolves to column `idx`,
`set_range` succeeds and sets the min and max of descriptor `idx` only (its
other fields, the other descriptors, both index maps and the pheno data stay),
so that the instrument range of `(colname, ctype)` is then `(lo, hi)`; with
`is_update_keywords` it writes the keywords "flowCore_$P<idx+1>Rmin" and
"flowCore_$P<idx+1>Rmax" and changes no other keyword, without it the keyword
store is unchanged. When the lookup says not found, `set_range` throws
"colname not found" and changes nothing. -/
theorem set_range_spec (lexical_cast : EVENT_DATA_TYPE → String) (f : CytoFrame)
    (colname : String) (ctype : ColType) (lo hi : EVENT_DATA_TYPE) (b : Bool)
    (hw : f.readonly_ = false) :
    (∀ (idx : Nat) (hidx : idx < f.params.length),
      get_col_idx f colname ctype = .ok (idx : Int) →
      (set_range lexical_cast f colname ctype (lo, hi) b).thrown = none ∧
      (set_range lexical_cast f colname ctype (lo, hi) b).frame.params.length
        = f.params.length ∧
      (set_range lexical_cast f colname ctype (lo, hi) b).frame.params[idx]?
        = some { f.params[idx] with min := lo, max := hi } ∧
      (∀ j, j ≠ idx →
        (set_range lexical_cast f colname ctype (lo, hi) b).frame.params[j]? = f.params[j]?) ∧
      (set_range lexical_cast f colname ctype (lo, hi) b).frame.channel_vs_idx
        = f.channel_vs_idx ∧
      (set_range lexical_cast f colname ctype (lo, hi) b).frame.marker_vs_idx
        = f.marker_vs_idx ∧
      (set_range lexical_cast f colname ctype (lo, hi) b).frame.pheno_data_
        = f.pheno_data_ ∧
      (∀ dat, get_range dat (set_range lexical_cast f colname ctype (lo, hi) b).frame
        colname ctype .instrument = .ok (lo, hi)) ∧
      (b = true →
        (set_range lexical_cast f colname ctype (lo, hi) b).frame.keys_.find
            ("flowCore_$P" ++ toString (idx + 1) ++ "Rmin") = some (lexical_cast lo) ∧
        (set_range lexical_cast f colname ctype (lo, hi) b).frame.keys_.find
            ("flowCore_$P" ++ toString (idx + 1) ++ "Rmax") = some (lexical_cast hi) ∧
        ∀ k, k ≠ "flowCore_$P" ++ toString (idx + 1) ++ "Rmin" →
          k ≠ "flowCore_$P" ++ toString (idx + 1) ++ "Rmax" →
          (set_range lexical_cast f colname ctype (lo, hi) b).frame.keys_.find k
            = f.keys_.find k) ∧
      (b = false →
        (set_range lexical_cast f colname ctype (lo, hi) b).frame.keys_ = f.keys_)) ∧
    (∀ i : Int, i < 0 → get_col_idx f colname ctype = .ok i →
      set_range lexical_cast f colname ctype (lo, hi) b
        = ⟨some ⟨"colname not found: " ++ colname⟩, f⟩) := by
  constructor
  · intro idx hidx hres
    rw [set_range_eq_of_resolved lexical_cast f colname ctype lo hi b idx hw hres]
    have hres2 : ∀ ks, get_col_idx
        { f with
          params := (f.params.modify (fun p => { p with min := lo }) idx).modify
            (fun p => { p with max := hi }) idx
          keys_ := ks } colname ctype = .ok (idx : Int) := by
      intro ks
      rw [← hres]
      simp only [get_col_idx, is_hashed, n_cols, List.length_modify]
    refine ⟨rfl, by simp, ?_, ?_, rfl, rfl, rfl, ?_, ?_, ?_⟩
    · simp [List.getElem?_modify, List.getElem?_eq_getElem hidx]
    · intro j hj
      simp only [List.getElem?_modify]
      cases f.params[j]? with
      | none => rfl
      | some d => simp [Ne.symm hj]
    · intro dat
      have h3 : ¬ ((idx : Int) < 0) := by omega
      have hget : ((f.params.modify (fun p => { p with min := lo }) idx).modify
          (fun p => { p with max := hi }) idx).getD idx default
            = { f.params[idx] with min := lo, max := hi } := by
        rw [List.getD_eq_getElem?_getD]
        simp [List.getElem?_modify, List.getElem?_eq_getElem hidx]
      simp only [get_range, hres2, h3, if_false, Int.toNat_ofNat, hget]
    · intro hb
      subst hb
      simp only [if_true]
      refine ⟨?_, ?_, ?_⟩
      · rw [unordered_map.find_assign_ne _ _ _ _ (rmin_key_ne_rmax_key _),
          unordered_map.find_assign_self]
      · rw [unordered_map.find_assign_self]
      · intro k hk1 hk2
        rw [unordered_map.find_assign_ne _ _ _ _ hk2, unordered_map.find_assign_ne _ _ _ _ hk1]
    · intro hb
      subst hb
      rfl
  · intro i hi hres
    simp [set_range, check_write_permission, hw, hres, hi]

/-- C16 at the frame with channels "A" and "B": after setting the range of
channel "B" to (0, 1) the instrument range of "B" is (0, 1). -/
theorem set_range_spec_witness :
    get_range [] (set_range (fun _ => "") (CytoFrame.of_params
        [cytoParam.named "A" "", cytoParam.named "B" ""]) "B" .channel (0, 1) true).frame
      "B" .channel .instrument = .ok (0, 1) :=
  ((set_range_spec (fun _ => "") (CytoFrame.of_params
      [cytoParam.named "A" "", cytoParam.named "B" ""]) "B" .channel 0 1 true (by decide)).1
    1 (by decide) (by decide)).2.2.2.2.2.2.2.1 []

/-- C17 fails as stated: the empty frame has no keyword "k", and
`get_keyword("k")` returns the empty text. -/
theorem get_keyword_missing_returns_empty :
    CytoFrame.empty.keys_.find "k" = none ∧ get_keyword CytoFrame.empty "k" = "" := by
  decide

/-- C17, amended: `get_keyword(key)` always returns a text: the stored value
when the key is in the keyword store, and the empty text when it is not. -/
theorem get_keyword_spec (f : CytoFrame) (key : String) :
    (f.keys_.find key = none → get_keyword f key = "") ∧
    (∀ v, f.keys_.find key = some v → get_keyword f key = v) := by
  constructor
  · intro h; simp [get_keyword, h]
  · intro v h; simp [get_keyword, h]

/-- C17 amended, at the frame whose only keyword is "$CYT" = "Aria": the
keyword "$CYT" gives "Aria". -/
theorem get_keyword_spec_witness :
    get_keyword { CytoFrame.empty with keys_ := unordered_map.clear.assign "$CYT" "Aria" }
      "$CYT" = "Aria" :=
  (get_keyword_spec { CytoFrame.empty with keys_ := unordered_map.clear.assign "$CYT" "Aria" }
    "$CYT").2 "Aria" (by decide)

/-- C18: `write_h5` writes its datasets in the order params, keywords, pdata,
data. With empty pheno data it throws at the pdata step, after params and
keywords and before pdata and data; with pheno data the pdata step succeeds
and all four datasets are written. -/
theorem write_h5_order (f : CytoFrame) :
    (write_h5 f).file <+: ["params", "keywords", "pdata", "data"] ∧
    (f.pheno_data_.size = 0 →
      write_h5_pheno_data f ["params", "keywords"]
        = .error (.c_string "CytoFrame requires non-empty pdata to write to h5!") ∧
      write_h5 f = ⟨some (.c_string "CytoFrame requires non-empty pdata to write to h5!"),
        ["params", "keywords"]⟩) ∧
    (f.pheno_data_.size ≠ 0 →
      write_h5_pheno_data f ["params", "keywords"] = .ok ["params", "keywords", "pdata"] ∧
      write_h5 f = ⟨none, ["params", "keywords", "pdata", "data"]⟩) := by
  by_cases h : f.pheno_data_.size = 0
  · have hw : write_h5 f
        = ⟨some (.c_string "CytoFrame requires non-empty pdata to write to h5!"),
          ["params", "keywords"]⟩ := by
      simp [write_h5, write_h5_params, write_h5_keys, write_h5_pheno_data, h]
    refine ⟨?_, fun _ => ⟨by simp [write_h5_pheno_data, h], hw⟩, fun h2 => absurd h h2⟩
    rw [hw]
    exact ⟨["pdata", "data"], rfl⟩
  · have hw : write_h5 f = ⟨none, ["params", "keywords", "pdata", "data"]⟩ := by
      simp [write_h5, write_h5_params, write_h5_keys, write_h5_pheno_data, h, DATASET_NAME]
    refine ⟨?_, fun h2 => absurd h2 h, fun _ => ⟨by simp [write_h5_pheno_data, h], hw⟩⟩
    rw [hw]

/-- C18 at the frame with the channel "A", one keyword and no pheno data:
params and keywords are written and the write throws. -/
theorem write_h5_order_witness :
    write_h5 { CytoFrame.of_params [cytoParam.named "A" ""] with
        keys_ := unordered_map.clear.assign "$CYT" "Aria" }
      = ⟨some (.c_string "CytoFrame requires non-empty pdata to write to h5!"),
        ["params", "keywords"]⟩ :=
  ((write_h5_order { CytoFrame.of_params [cytoParam.named "A" ""] with
      keys_ := unordered_map.clear.assign "$CYT" "Aria" }).2.1 (by decide)).2

/-! ## Facts about the batch lookup -/

/-- When every name resolves, the batch lookup returns the single lookups. -/
theorem get_col_idx_vec_ok (f : CytoFrame) (names : List String) (type : ColType)
    (hall : ∀ n ∈ names, ∃ i : Int, 0 ≤ i ∧ get_col_idx f n type = .ok i) :
    ∃ col_idx, get_col_idx_vec f names type = .ok col_idx ∧
      col_idx.length = names.length ∧
      ∀ (k : Nat) (hk : k < names.length) (hk2 : k < col_idx.length),
        get_col_idx f names[k] type = .ok col_idx[k] := by
  induction names with
  | nil => exact ⟨[], rfl, rfl, fun k hk => absurd hk (by simp)⟩
  | cons a rest ih =>
    obtain ⟨i, hi, hg⟩ := hall a (List.mem_cons_self a rest)
    obtain ⟨ids, hids, hlen, hget⟩ := ih (fun n hn => hall n (List.mem_cons_of_mem a hn))
    have h3 : ¬ i < 0 := by omega
    refine ⟨i :: ids, by simp [get_col_idx_vec, hg, h3, hids], by simp [hlen], ?_⟩
    intro k hk hk2
    cases k with
    | zero => simpa using hg
    | succ k =>
      simp only [List.getElem_cons_succ]
      exact hget k (by simpa using hk) (by simpa using hk2)

/-- The batch lookup throws for a name that is not found when all names before
it resolve. -/
theorem get_col_idx_vec_first_unresolved (f : CytoFrame) (names : List String)
    (type : ColType) (k : Nat) (hk : k < names.length)
    (hbefore : ∀ (j : Nat) (hj : j < k),
      ∃ i : Int, 0 ≤ i ∧ get_col_idx f (names[j]) type = .ok i)
    (hat : ∃ i : Int, i < 0 ∧ get_col_idx f names[k] type = .ok i) :
    get_col_idx_vec f names type = .error ⟨"colname not found: " ++ names[k]⟩ := by
  induction names generalizing k with
  | nil => simp at hk
  | cons a rest ih =>
    cases k with
    | zero =>
      obtain ⟨i, hi, hg⟩ := hat
      simp only [List.getElem_cons_zero] at hg ⊢
      simp [get_col_idx_vec, hg, hi]
    | succ k =>
      obtain ⟨i, hi, hg⟩ := hbefore 0 (by omega)
      simp only [List.getElem_cons_zero] at hg
      have h3 : ¬ i < 0 := by omega
      have hk2 : k < rest.length := by simpa using hk
      have := ih k hk2 (fun j hj => by
        have := hbefore (j + 1) (by omega)
        simpa using this) (by simpa using hat)
      simp only [List.getElem_cons_succ]
      simp [get_col_idx_vec, hg, h3, this]

/-- C19: on a frame with a built index, the batch lookup by channel or by
marker returns, when every name resolves, a vector as long as the list of
names whose entries are the single lookups; otherwise it throws "colname not
found" for the first name of the list that does not resolve. -/
theorem get_col_idx_vec_spec (f : CytoFrame) (names : List String) (type : ColType)
    (hh : is_hashed f = true) (ht : type = .channel ∨ type = .marker) :
    ((∀ n ∈ names, ∃ i : Int, 0 ≤ i ∧ get_col_idx f n type = .ok i) →
      ∃ col_idx, get_col_idx_vec f names type = .ok col_idx ∧
        col_idx.length = names.length ∧
        ∀ (k : Nat) (hk : k < names.length) (hk2 : k < col_idx.length),
          get_col_idx f names[k] type = .ok col_idx[k]) ∧
    ((¬ ∀ n ∈ names, ∃ i : Int, 0 ≤ i ∧ get_col_idx f n type = .ok i) →
      ∃ (k : Nat) (hk : k < names.length),
        (∀ (j : Nat) (hj : j < k),
          ∃ i : Int, 0 ≤ i ∧ get_col_idx f (names[j]) type = .ok i) ∧
        (∃ i : Int, i < 0 ∧ get_col_idx f names[k] type = .ok i) ∧
        get_col_idx_vec f names type = .error ⟨"colname not found: " ++ names[k]⟩) := by
  refine ⟨get_col_idx_vec_ok f names type, ?_⟩
  intro hnot
  have hfirst := exists_first_unresolved f names type hh ht hnot
  obtain ⟨k, hk, hbefore, hat⟩ := hfirst
  exact ⟨k, hk, hbefore, hat, get_col_idx_vec_first_unresolved f names type k hk hbefore hat⟩

/-- C19 at the frame with channels "A" and "B" and the names "B", "X", "Y":
the failure names "X". -/
theorem get_col_idx_vec_spec_witness :
    ∃ (k : Nat) (hk : k < ["B", "X", "Y"].length),
      (∀ (j : Nat) (hj : j < k), ∃ i : Int, 0 ≤ i ∧
        get_col_idx (CytoFrame.of_params [cytoParam.named "A" "", cytoParam.named "B" ""])
          (["B", "X", "Y"][j]) .channel = .ok i) ∧
      (∃ i : Int, i < 0 ∧
        get_col_idx (CytoFrame.of_params [cytoParam.named "A" "", cytoParam.named "B" ""])
          ["B", "X", "Y"][k] .channel = .ok i) ∧
      get_col_idx_vec (CytoFrame.of_params [cytoParam.named "A" "", cytoParam.named "B" ""])
        ["B", "X", "Y"] .channel = .error ⟨"colname not found: " ++ ["B", "X", "Y"][k]⟩ :=
  (get_col_idx_vec_spec (CytoFrame.of_params [cytoParam.named "A" "", cytoParam.named "B" ""])
    ["B", "X", "Y"] .channel (by decide) (Or.inl rfl)).2
    (fun hall => by
      obtain ⟨i, hi, hg⟩ := hall "X" (by decide)
      have h2 : get_col_idx
          (CytoFrame.of_params [cytoParam.named "A" "", cytoParam.named "B" ""])
          "X" .channel = .ok (-1) := by decide
      rw [h2] at hg
      injection hg with hg
      omega)

/-! ## Facts about the index-not-built check -/

theorem ambiguous_ne_not_hashed (colname : String) :
    (⟨"ambiguous colname without colType: " ++ colname⟩ : domain_error) ≠ not_hashed_error := by
  intro h
  have h2 := congrArg (fun e : domain_error => e.what.data.head?) h
  simp [String.data_append, not_hashed_error] at h2

/-- The lookup throws the index-not-built error exactly when the index does
not count as built. -/
theorem get_col_idx_not_hashed_iff (f : CytoFrame) (name : String) (type : ColType) :
    get_col_idx f name type = .error not_hashed_error ↔ is_hashed f = false := by
  constructor
  · intro h
    cases hh : is_hashed f with
    | false => rfl
    | true =>
      exfalso
      cases type with
      | channel =>
        cases hf : f.channel_vs_idx.find name <;> simp [get_col_idx, hh, hf] at h
      | marker =>
        cases hf : f.marker_vs_idx.find name <;> simp [get_col_idx, hh, hf] at h
      | unknown =>
        cases hf : f.channel_vs_idx.find name <;> cases hm : f.marker_vs_idx.find name <;>
          simp [get_col_idx, hh, hf, hm] at h
        exact ambiguous_ne_not_hashed name h
  · intro hh
    simp [get_col_idx, hh]

/-- After `build_hash` the index counts as built exactly when the channel
names are pairwise distinct. -/
theorem is_hashed_build_hash_iff (f : CytoFrame) :
    is_hashed (build_hash f) = true ↔ (f.params.map cytoParam.channel).Nodup := by
  constructor
  · intro h
    simp only [is_hashed, n_cols, build_hash_params, build_hash_channel_vs_idx,
      beq_iff_eq] at h
    exact (nodup_of_size_index_loop cytoParam.channel f.params 0 unordered_map.clear
      (by rw [h, unordered_map.size_clear]; omega)).1
  · exact is_hashed_build_hash f

/-- C20: `get_col_idx` throws the index-not-built error, for every name and
column kind and whatever the maps hold, exactly when the size of the channel
map differs from the number of descriptors. After a `set_params(p)` that ran,
the two sizes agree exactly when the channel names of `p` are pairwise
distinct. So after `set_params(p)` on a writable frame with a repeated channel
name in `p`, every single lookup, every batch lookup of at least one name,
every instrument-range query, every `set_channel`, `set_marker` and
`set_range`, and every `set_channels` of at least one entry throws that error
and changes nothing. -/
theorem index_not_built_spec :
    (∀ (f : CytoFrame) (name : String) (type : ColType),
      get_col_idx f name type = .error not_hashed_error
        ↔ f.channel_vs_idx.size ≠ n_cols f) ∧
    (∀ (f : CytoFrame) (p : List cytoParam) (force : Bool),
      (set_params f p force).thrown = none →
      ((set_params f p force).frame.channel_vs_idx.size = n_cols (set_params f p force).frame
        ↔ (p.map cytoParam.channel).Nodup)) ∧
    (∀ (f : CytoFrame) (p : List cytoParam), f.readonly_ = false →
      ¬ (p.map cytoParam.channel).Nodup →
      (∀ name type,
        get_col_idx (set_params f p false).frame name type = .error not_hashed_error) ∧
      (∀ name rest type,
        get_col_idx_vec (set_params f p false).frame (name :: rest) type
          = .error not_hashed_error) ∧
      (∀ dat name type,
        get_range dat (set_params f p false).frame name type .instrument
          = .error (.domain not_hashed_error)) ∧
      (∀ old new b,
        set_channel (set_params f p false).frame old new b
          = ⟨some not_hashed_error, (set_params f p false).frame⟩) ∧
      (∀ old new rest,
        set_channels (set_params f p false).frame ((old, new) :: rest)
          = ⟨some not_hashed_error, (set_params f p false).frame⟩) ∧
      (∀ old new,
        set_marker (set_params f p false).frame old new
          = ⟨some not_hashed_error, (set_params f p false).frame⟩) ∧
      (∀ lexical_cast colname ctype new_range b,
        set_range lexical_cast (set_params f p false).frame colname ctype new_range b
          = ⟨some not_hashed_error, (set_params f p false).frame⟩)) := by
  refine ⟨?_, ?_, ?_⟩
  · intro f name type
    rw [get_col_idx_not_hashed_iff]
    simp [is_hashed]
  · intro f p force hs
    have hset : (set_params f p force).frame = build_hash { f with params := p } := by
      unfold set_params at hs ⊢
      split at hs
      · simp at hs
      · rfl
    rw [hset, ← is_hashed_build_hash_iff { f with params := p }]
    simp [is_hashed]
  · intro f p hw hp
    have hset : (set_params f p false).frame = build_hash { f with params := p } := by
      simp [set_params, check_write_permission, hw]
    have hh : is_hashed (set_params f p false).frame = false := by
      rw [hset]
      cases h : is_hashed (build_hash { f with params := p }) with
      | false => rfl
      | true => exact absurd ((is_hashed_build_hash_iff { f with params := p }).1 h) hp
    have hro : (set_params f p false).frame.readonly_ = false := by
      rw [hset]; exact hw
    have hget : ∀ name type,
        get_col_idx (set_params f p false).frame name type = .error not_hashed_error :=
      fun name type => (get_col_idx_not_hashed_iff _ name type).2 hh
    refine ⟨hget, ?_, ?_, ?_, ?_, ?_, ?_⟩
    · intro name rest type
      simp [get_col_idx_vec, hget]
    · intro dat name type
      simp [get_range, hget]
    · intro old new b
      simp [set_channel, check_write_permission, hro, hget]
    · intro old new rest
      exact set_channels_reraises_not_hashed _ old new rest hro hh
    · intro old new
      simp [set_marker, check_write_permission, hro, hget]
    · intro lc colname ctype r b
      simp [set_range, check_write_permission, hro, hget]

/-- C20 at the empty frame after `set_params` with two descriptors that share
the channel "A": the lookup of "A" throws the index-not-built error. -/
theorem index_not_built_spec_witness :
    get_col_idx (set_params CytoFrame.empty
        [cytoParam.named "A" "", cytoParam.named "A" ""] false).frame "A" .channel
      = .error not_hashed_error :=
  (index_not_built_spec.2.2 CytoFrame.empty [cytoParam.named "A" "", cytoParam.named "A" ""]
    (by decide) (by decide)).1 "A" .channel

/-! ## Facts about copying and moving -/

theorem copy_construct_eq (uninit : Bool) (frm : CytoFrame) : copy_construct uninit frm = frm :=
  rfl

theorem copy_assign_eq (this frm : CytoFrame) : copy_assign this frm = frm := rfl

theorem move_assign_eq (this frm : CytoFrame) : move_assign this frm = (frm, this) := rfl

/-- C22: on a frame whose read-only flag is set, `set_params(p, true)` returns
normally; the descriptors are then `p`, the two maps are the ones the loop of
`build_hash` makes from `p` (the index is consistent), and the keywords, the
pheno data and the flag are as before; `set_params(p, false)` throws the
read-only error and changes nothing. -/
theorem set_params_force (f : CytoFrame) (p : List cytoParam) (hr : f.readonly_ = true) :
    (set_params f p true).thrown = none ∧
    (set_params f p true).frame.params = p ∧
    (set_params f p true).frame.channel_vs_idx
      = (build_hash_loop p 0 unordered_map.clear unordered_map.clear).1 ∧
    (set_params f p true).frame.marker_vs_idx
      = (build_hash_loop p 0 unordered_map.clear unordered_map.clear).2 ∧
    index_consistent (set_params f p true).frame = true ∧
    (set_params f p true).frame.keys_ = f.keys_ ∧
    (set_params f p true).frame.pheno_data_ = f.pheno_data_ ∧
    (set_params f p true).frame.readonly_ = true ∧
    set_params f p false = ⟨some readonly_error, f⟩ := by
  refine ⟨rfl, rfl, rfl, rfl, ?_, rfl, rfl, hr, ?_⟩
  · simp only [index_consistent, Bool.and_eq_true, unordered_map.equal_iff]
    exact ⟨fun _ => rfl, fun _ => rfl⟩
  · simp [set_params, check_write_permission, hr]

/-- C22 at the guarded frame with the single channel "A": a forced
`set_params` with the channels "B", "C" succeeds and "C" resolves to column
1. -/
theorem set_params_force_witness :
    (set_params (set_readonly (CytoFrame.of_params [cytoParam.named "A" ""]) true)
      [cytoParam.named "B" "", cytoParam.named "C" ""] true).thrown = none ∧
    get_col_idx (set_params (set_readonly (CytoFrame.of_params [cytoParam.named "A" ""]) true)
      [cytoParam.named "B" "", cytoParam.named "C" ""] true).frame "C" .channel = .ok 1 :=
  ⟨(set_params_force (set_readonly (CytoFrame.of_params [cytoParam.named "A" ""]) true)
      [cytoParam.named "B" "", cytoParam.named "C" ""] (by decide)).1,
    by decide⟩

end cytolib
